import Mathlib

/-!
Verification of the Sottaku multi-language term-resolution pipeline
(`ext/js/background/sottaku-integration.js`, `ext/js/comm/sottaku-client.js`,
`ext/js/language/sottaku-languages.js`).

JavaScript strings are modelled as `List Char` (one element per Unicode code
point; every string handled by the claims lies in the BMP, where this agrees
with UTF-16 code-unit counting).  Dynamic JavaScript values are modelled by the
`JSVal` inductive.  Network calls and the browser `URL` constructor are
modelled as oracle functions supplied to each operation, and each operation
returns the list of network requests it issued alongside its result.
-/

namespace Sottaku

/-- JavaScript strings, one entry per code point. -/
abbrev JStr := List Char

/-- The whitespace class used by `String.prototype.trim` (WhiteSpace and
LineTerminator code points). -/
def jsIsWhite (c : Char) : Bool :=
  c = ' ' || c = '\t' || c = '\n' || c = '\r' ||
  c.val = 0x0b || c.val = 0x0c || c.val = 0xa0 || c.val = 0x1680 ||
  (0x2000 ≤ c.val && c.val ≤ 0x200a) ||
  c.val = 0x2028 || c.val = 0x2029 || c.val = 0x202f || c.val = 0x205f ||
  c.val = 0x3000 || c.val = 0xfeff

/-- Model of `s.trim()`: remove leading and trailing whitespace. -/
def jsTrim (s : JStr) : JStr :=
  ((s.dropWhile jsIsWhite).reverse.dropWhile jsIsWhite).reverse

/-- Dynamic JavaScript values (finite numbers are modelled by `Int`; the
fields relevant to the pipeline are integers). -/
inductive JSVal where
  | null
  | undefined
  | bool (b : Bool)
  | num (n : Int)
  | str (s : JStr)
  | arr (xs : List JSVal)
  | obj (fields : List (String × JSVal))
deriving Repr

/-- Property read `v[k]`; `undefined` on non-objects (the source only reads
properties through `?.` or after normalising the base to an object). -/
def getField : JSVal → String → JSVal
  | .obj fs, k =>
    match fs.find? (fun f => f.1 == k) with
    | some f => f.2
    | none => .undefined
  | _, _ => .undefined

/-- Property write `v[k] = x` (no-op on non-objects; the source only assigns
on values already known to be objects). -/
def setField (v : JSVal) (k : String) (x : JSVal) : JSVal :=
  match v with
  | .obj fs =>
    .obj (if fs.any (fun f => f.1 == k)
      then fs.map (fun f => if f.1 == k then (f.1, x) else f)
      else fs ++ [(k, x)])
  | other => other

/-- JavaScript truthiness. -/
def jsTruthy : JSVal → Bool
  | .null => false
  | .undefined => false
  | .bool b => b
  | .num n => n != 0
  | .str s => !s.isEmpty
  | .arr _ => true
  | .obj _ => true

/-- Model of `a || b` on JavaScript values. -/
def jsOr (a b : JSVal) : JSVal := if jsTruthy a then a else b

/-- Model of `a ?? b` (nullish coalescing). -/
def jsCoalesce (a b : JSVal) : JSVal :=
  match a with
  | .null => b
  | .undefined => b
  | _ => a

/-- Model of `a || b` specialised to strings (a string is truthy iff non-empty). -/
def jsOrChars (a b : JStr) : JStr := if a.isEmpty then b else a

mutual

/-- Model of `String(v)` / `v.toString()` for the values the pipeline handles. -/
def jsToString : JSVal → JStr
  | .null => "null".toList
  | .undefined => "undefined".toList
  | .bool true => "true".toList
  | .bool false => "false".toList
  | .num n => (toString n).toList
  | .str s => s
  | .arr xs => jsToStringElems xs
  | .obj _ => "[object Object]".toList

/-- Model of `Array.prototype.toString` body: elements joined by `,`, with `null` and
`undefined` elements rendered empty. -/
def jsToStringElems : List JSVal → JStr
  | [] => []
  | v :: vs =>
    let s := match v with
      | .null => []
      | .undefined => []
      | w => jsToString w
    match vs with
    | [] => s
    | _ :: _ => s ++ ',' :: jsToStringElems vs

end

/-- Digits to a natural number, most significant first. -/
def digitsToNat (ds : JStr) : Nat :=
  ds.foldl (fun acc c => acc * 10 + (c.toNat - 48)) 0

/-- Leading base-10 digit run of a string, `none` when the first character is
not a digit. -/
def parseLeadingDigits (s : JStr) : Option Nat :=
  let ds := s.takeWhile Char.isDigit
  if ds.isEmpty then none else some (digitsToNat ds)

/-- Model of `Number.parseInt(s, 10)` on a string: skip leading whitespace, optional
sign, then a digit run; `none` models `NaN`. -/
def jsParseIntOfChars (s : JStr) : Option Int :=
  match s.dropWhile jsIsWhite with
  | '-' :: rest => (parseLeadingDigits rest).map (fun n => -(n : Int))
  | '+' :: rest => (parseLeadingDigits rest).map (fun n => (n : Int))
  | rest => (parseLeadingDigits rest).map (fun n => (n : Int))

/-- Model of `Number.parseInt(v, 10)`: the argument is coerced to a string first. -/
def jsParseInt (v : JSVal) : Option Int := jsParseIntOfChars (jsToString v)

/-- Model of `s.toLowerCase()` (ASCII case mapping; the matched keywords are ASCII). -/
def jsToLower (s : JStr) : JStr := s.map Char.toLower

/-- Whether the second list occurs at the start of the first. -/
def listStartsWith : JStr → JStr → Bool
  | _, [] => true
  | [], _ :: _ => false
  | c :: cs, d :: ds => c = d && listStartsWith cs ds

/-- Model of `hay.includes(needle)`. -/
def jsIncludes (hay needle : JStr) : Bool :=
  match hay with
  | [] => needle.isEmpty
  | _ :: rest => listStartsWith hay needle || jsIncludes rest needle

/-! ## Language policy (`sottaku-languages.js`, `_resolveLanguages`,
`_detectLanguageFromText`) -/

/-- Model of `SOTTAKU_SUPPORTED_LANGUAGES`, the static default list of the
codes ja and ko. -/
def SOTTAKU_SUPPORTED_LANGUAGES : List JStr := ["ja".toList, "ko".toList]

/-- Model of `getSottakuLanguageFlag`. -/
def getSottakuLanguageFlag (language : JStr) : JStr :=
  if language = "ja".toList then "🇯🇵".toList
  else if language = "ko".toList then "🇰🇷".toList
  else "🌐".toList

/-- One step of the trim/dedup loop in `normalizeSupportedLanguagesList`
(state: seen set, output list; all call sites pass string arrays, so the
`typeof` guard is statically satisfied). -/
def supportedFoldStep (st : List JStr × List JStr) (l : JStr) : List JStr × List JStr :=
  let trimmed := jsTrim l
  if trimmed = [] then st
  else if trimmed ∈ st.1 then st
  else (trimmed :: st.1, st.2 ++ [trimmed])

/-- Model of `normalizeSupportedLanguagesList`. -/
def normalizeSupportedLanguagesList (supportedLanguages : List JStr) : List JStr :=
  let normalized := (supportedLanguages.foldl supportedFoldStep ([], [])).2
  if normalized = [] then SOTTAKU_SUPPORTED_LANGUAGES else normalized

/-- The `addLanguage` closure of `normalizeSottakuLanguages` (state: seen set,
output list). -/
def addLanguage (supportedN : List JStr) (st : List JStr × List JStr) (value : JSVal) :
    List JStr × List JStr :=
  match value with
  | .str v =>
    let iso := jsTrim v
    if iso = [] then st
    else if iso ∈ st.1 then st
    else if iso ∈ supportedN then (iso :: st.1, st.2 ++ [iso])
    else st
  | _ => st

/-- The preferred-language entries actually iterated (`Array.isArray` guard:
non-arrays behave as the empty list). -/
def prefListOf (preferredLanguages : JSVal) : List JSVal :=
  match preferredLanguages with
  | .arr xs => xs
  | _ => []

/-- Specification-side reading of the preferred-language filter: trim each
string entry, drop empty entries and entries outside the supported set, keep
first occurrences only, preserving order (`seen` accumulates kept entries). -/
def claimFilterPref (supportedN : List JStr) : List JSVal → List JStr → List JStr
  | [], _ => []
  | v :: vs, seen =>
    match v with
    | .str s =>
      let iso := jsTrim s
      if iso = [] then claimFilterPref supportedN vs seen
      else if iso ∈ seen then claimFilterPref supportedN vs seen
      else if iso ∈ supportedN then iso :: claimFilterPref supportedN vs (iso :: seen)
      else claimFilterPref supportedN vs seen
    | _ => claimFilterPref supportedN vs seen

/-- Invariant of the seen/output state in the dedup folds: the output is
duplicate-free, holds trimmed non-empty entries, and is contained in the
seen set. -/
def dedupStateInv (st : List JStr × List JStr) : Prop :=
  st.2.Nodup ∧ (∀ x ∈ st.2, jsTrim x = x ∧ x ≠ []) ∧ (∀ x ∈ st.2, x ∈ st.1)

/-- Model of `normalizeSottakuLanguages(preferredLanguages, defaultLanguage,
supportedLanguages)` (the three-argument version imported by the
integration). -/
def normalizeSottakuLanguages (preferredLanguages : JSVal) (defaultLanguage : JStr)
    (supportedLanguages : List JStr) : List JStr :=
  let supportedN := normalizeSupportedLanguagesList supportedLanguages
  let st1 := (prefListOf preferredLanguages).foldl (addLanguage supportedN) ([], [])
  let st2 := if st1.2 = [] then addLanguage supportedN st1 (.str defaultLanguage) else st1
  let st3 := if st2.2 = [] then
      supportedN.foldl (fun st l => addLanguage supportedN st (.str l)) st2
    else st2
  st3.2

/-- Model of `HANGUL_CHAR_PATTERN` character class. -/
def isHangulChar (c : Char) : Bool :=
  (0x1100 ≤ c.val && c.val ≤ 0x11ff) ||
  (0x3130 ≤ c.val && c.val ≤ 0x318f) ||
  (0xac00 ≤ c.val && c.val ≤ 0xd7af)

/-- Model of `JAPANESE_CHAR_PATTERN` character class. -/
def isJapaneseChar (c : Char) : Bool :=
  (0x3040 ≤ c.val && c.val ≤ 0x30ff) ||
  (0x3400 ≤ c.val && c.val ≤ 0x4dbf) ||
  (0x4e00 ≤ c.val && c.val ≤ 0x9fff)

/-- Model of `_detectLanguageFromText`. -/
def detectLanguageFromText (text : JStr) : Option JStr :=
  let trimmed := jsTrim text
  if trimmed.any isHangulChar then some "ko".toList
  else if trimmed.any isJapaneseChar then some "ja".toList
  else none

/-- Model of `_resolveLanguages(text, sottakuOptions, defaultLanguage)`; `st` is the
current `this._supportedLanguages`. -/
def resolveLanguages (st : List JStr) (text : JStr) (languageMode : JStr)
    (preferredLanguages : JSVal) (defaultLanguage : JStr) : List JStr :=
  let supportedLanguages := if st ≠ [] then st else SOTTAKU_SUPPORTED_LANGUAGES
  let preferred := normalizeSottakuLanguages preferredLanguages defaultLanguage supportedLanguages
  if languageMode = "ja".toList then ["ja".toList]
  else if languageMode = "ko".toList then ["ko".toList]
  else if languageMode = "mixed".toList then preferred
  else
    match detectLanguageFromText text with
    | some detected => [detected]
    | none =>
      match preferred with
      | first :: _ => [first]
      | [] => if defaultLanguage ≠ [] then [defaultLanguage] else ["ja".toList]

/-! ## Errors and canonical entry records -/

/-- A thrown JavaScript error; `isExtensionError` distinguishes the
extension's own `ExtensionError` values from transport errors. -/
structure JsError where
  isExtensionError : Bool
  message : JStr
deriving Repr, DecidableEq

/-- The upgrade-required `ExtensionError` thrown on paywall errors. -/
def upgradeRequiredError : JsError :=
  ⟨true, "Upgrade required: https://sottaku.app/upgrade".toList⟩

/-- The `ExtensionError` thrown when `findTerms` runs before `configure`. -/
def optionsNotConfiguredError : JsError :=
  ⟨true, "Sottaku options not configured".toList⟩

/-- The `ExtensionError` thrown when the feature is enabled without a token. -/
def signInRequiredError : JsError :=
  ⟨true, "Sign in to Sottaku from the settings page to enable remote lookups.".toList⟩

/-- One element of a headword's `sources` array. -/
structure TermSource where
  originalText : JStr
  transformedText : JStr
  deinflectedText : JStr
  matchType : JStr
  matchSource : JStr
  isPrimary : Bool
deriving Repr, DecidableEq

/-- The `sottaku` metadata side-record grafted onto headwords and entries. -/
structure SottakuMetadata where
  questionId : Option Int
  language : JStr
  inFlashcards : Bool
  audioWord : Option JStr
  audioSentence : Option JStr
  matchLength : Option Int
  hasDefinition : Bool
  translation : JStr
  sentence : JStr
  sentenceTranslation : JStr
  usageNotes : JStr
  reading : JStr
  term : JStr
  languageFlag : JStr
deriving Repr, DecidableEq

/-- A `TermHeadword` as built by `_createEntry`. -/
structure TermHeadword where
  index : Nat
  term : JStr
  reading : JStr
  sources : List TermSource
  tags : List JStr
  wordClasses : List JStr
  sottaku : SottakuMetadata
deriving Repr, DecidableEq

/-- A `TermDefinition` as built by `_createEntry`. -/
structure TermDefinition where
  index : Nat
  headwordIndices : List Nat
  dictionary : JStr
  dictionaryIndex : Nat
  dictionaryAlias : JStr
  id : Int
  score : Int
  frequencyOrder : Nat
  sequences : List Int
  isPrimary : Bool
  tags : List JStr
  entries : List JStr
deriving Repr, DecidableEq

/-- The canonical dictionary entry produced by `_createEntry`. -/
structure DictionaryEntry where
  type : JStr
  isPrimary : Bool
  textProcessorRuleChainCandidates : List JStr
  inflectionRuleChainCandidates : List JStr
  score : Int
  frequencyOrder : Nat
  dictionaryIndex : Nat
  dictionaryAlias : JStr
  sourceTermExactMatchCount : Nat
  matchPrimaryReading : Bool
  maxOriginalTextLength : Nat
  headwords : List TermHeadword
  definitions : List TermDefinition
  pronunciations : List JStr
  frequencies : List JStr
  sottaku : SottakuMetadata
deriving Repr, DecidableEq

/-- Per-language intermediate result (`SottakuLanguageResult`). -/
structure LanguageResult where
  language : JStr
  entries : List DictionaryEntry
  originalTextLength : Int
deriving Repr, DecidableEq

/-- Model of `_createGlossaryEntries`. -/
def createGlossaryEntries (translation sentence sentenceTranslation usageNotes : JStr) :
    List JStr :=
  let entries : List JStr :=
    (if !translation.isEmpty then [translation] else []) ++
    (if !sentence.isEmpty then ["Context: ".toList ++ sentence] else []) ++
    (if !sentenceTranslation.isEmpty then ["Translation: ".toList ++ sentenceTranslation] else []) ++
    (if !usageNotes.isEmpty then ["Usage: ".toList ++ usageNotes] else [])
  if entries.isEmpty then ["No Sottaku definition available yet.".toList] else entries

/-- Model of `_resolveUrl(value, base)`: falsy values resolve to `null`; otherwise the
platform `new URL(text, base)` call is modelled by the oracle `urlRes`, which
returns `none` when the constructor would throw. -/
def resolveEntryUrl (urlRes : JStr → JStr → Option JStr) (value : JSVal) (base : JStr) :
    Option JStr :=
  if !jsTruthy value then none
  else urlRes (jsToString value) base

/-- Model of joining sentence tokens with the empty separator
(`Array.prototype.join` renders `null`
and `undefined` elements as empty). -/
def jsJoinEmpty (xs : List JSVal) : JStr :=
  xs.foldr (fun v acc =>
    (match v with
      | .null => []
      | .undefined => []
      | w => jsToString w) ++ acc) []

/-- Normalisation of a raw value to an object: a non-object (and `null`)
becomes the empty object; arrays count as objects too. -/
def normalizeToObj (v : JSVal) : JSVal :=
  match v with
  | .obj _ => v
  | .arr _ => v
  | _ => .obj []

/-- Model of `Number.parseInt(normalizedResult.id ?? normalizedInfo.id, 10)`. -/
def entryQuestionId (result info : JSVal) : Option Int :=
  jsParseInt
    (jsCoalesce (getField (normalizeToObj result) "id") (getField (normalizeToObj info) "id"))

/-- Model of `_createEntry(result, info, language, apiOrigin, query, index, sourceText,
matchLengthOverride)`.  `urlRes` models the `URL` constructor. -/
def createEntry (urlRes : JStr → JStr → Option JStr) (result info : JSVal)
    (language apiOrigin : JStr) (query : JStr) (index : Nat)
    (sourceText : JStr) (matchLengthOverride : JSVal) : DictionaryEntry :=
  let normalizedResult := normalizeToObj result
  let normalizedInfo := normalizeToObj info
  let questionId := entryQuestionId result info
  let term := jsToString (jsOr (getField normalizedInfo "kanji_representation")
    (jsOr (getField normalizedResult "kanji_representation")
      (jsOr (.str query) (.str []))))
  let reading := jsToString (jsOr (getField normalizedInfo "reading")
    (jsOr (getField normalizedResult "reading") (.str term)))
  let matchLengthRaw := jsCoalesce (getField normalizedResult "match_length")
    (jsCoalesce (getField normalizedInfo "match_length") matchLengthOverride)
  let matchLength := jsParseInt matchLengthRaw
  let translation := jsToString (jsOr (getField normalizedInfo "word_translation")
    (jsOr (getField normalizedInfo "english_word")
      (jsOr (getField normalizedResult "word_translation")
        (jsOr (getField normalizedResult "english_word") (.str [])))))
  let sentenceTokens := match getField normalizedInfo "cloze_sentence_tokens" with
    | .arr xs => some xs
    | _ => none
  let sentence := match sentenceTokens with
    | some xs =>
      if !xs.isEmpty then jsJoinEmpty xs
      else jsToString (jsOr (getField normalizedInfo "cloze_sentence") (.str []))
    | none => jsToString (jsOr (getField normalizedInfo "cloze_sentence") (.str []))
  let sentenceTranslation := jsToString (jsOr (getField normalizedInfo "english_sentence") (.str []))
  let usageNotes := jsToString (jsOr (getField normalizedInfo "usage_notes") (.str []))
  let hasDefinition := jsTruthy (jsOr
    (jsCoalesce (getField normalizedResult "has_definition")
      (jsCoalesce (getField normalizedInfo "has_definition") .null))
    (jsOr (.str translation) (.str sentence)))
  let dictionaryAlias := getSottakuLanguageFlag language
  let resolvedSourceText := jsToString (jsOr (.str sourceText) (jsOr (.str query) (.str [])))
  let audioWord := resolveEntryUrl urlRes (getField normalizedInfo "word_audio_file") apiOrigin
  let audioSentence := resolveEntryUrl urlRes (getField normalizedInfo "sentence_audio_file") apiOrigin
  let metadata : SottakuMetadata :=
    { questionId := questionId
      language := language
      inFlashcards := jsTruthy (getField normalizedResult "in_flashcards")
      audioWord := audioWord
      audioSentence := audioSentence
      matchLength := matchLength
      hasDefinition := hasDefinition
      translation := translation
      sentence := sentence
      sentenceTranslation := sentenceTranslation
      usageNotes := usageNotes
      reading := reading
      term := term
      languageFlag := dictionaryAlias }
  let headwords : List TermHeadword :=
    [{ index := 0
       term := jsOrChars term (jsOrChars reading query)
       reading := reading
       sources := [{ originalText := resolvedSourceText
                     transformedText := query
                     deinflectedText := jsOrChars term query
                     matchType := "exact".toList
                     matchSource := "term".toList
                     isPrimary := true }]
       tags := []
       wordClasses := []
       sottaku := metadata }]
  let definitions : List TermDefinition :=
    [{ index := 0
       headwordIndices := [0]
       dictionary := "Sottaku".toList
       dictionaryIndex := 0
       dictionaryAlias := dictionaryAlias
       id := match questionId with
         | some q => q
         | none => (index : Int)
       score := max 0 (100 - (index : Int))
       frequencyOrder := index
       sequences := [match questionId with
         | some q => q
         | none => -1]
       isPrimary := true
       tags := []
       entries := createGlossaryEntries translation sentence sentenceTranslation usageNotes }]
  { type := "term".toList
    isPrimary := true
    textProcessorRuleChainCandidates := []
    inflectionRuleChainCandidates := []
    score := max 0 (100 - (index : Int))
    frequencyOrder := index
    dictionaryIndex := 0
    dictionaryAlias := dictionaryAlias
    sourceTermExactMatchCount :=
      if !query.isEmpty && !term.isEmpty && query = term then 1 else 0
    matchPrimaryReading := query = reading
    maxOriginalTextLength :=
      max (max query.length term.length) (max reading.length resolvedSourceText.length)
    headwords := headwords
    definitions := definitions
    pronunciations := []
    frequencies := []
    sottaku := metadata }

/-! ## Client operations (`sottaku-client.js`) and network accounting -/

/-- Network requests issued by the integration (the translator is a local
collaborator, not a network call). -/
inductive NetRequest where
  | supportedLanguages
  | scan (text language : JStr)
  | flashcardMembership (ids : List Int) (language : JStr)
deriving Repr, DecidableEq

/-- The `results` normalisation inside `SottakuClient.scan`: the server's
array, else `[]`. -/
def scanResultsOf (data : JSVal) : List JSVal :=
  match getField data "results" with
  | .arr xs => xs
  | _ => []

/-- The `original_text_length` normalisation inside `SottakuClient.scan`:
the server's finite number, else the scanned text, with a floor of zero. -/
def scanOriginalLengthOf (data : JSVal) (text : JStr) : Int :=
  match getField data "original_text_length" with
  | .num n => n
  | _ => max 0 (text.length : Int)

/-- Model of `SottakuClient.scan`: the server oracle returns the unwrapped response
body (or throws); the client normalises it to
`{results: array, originalTextLength: number}`. -/
def clientScan (scanServer : JStr → JStr → Except JsError JSVal)
    (text language : JStr) : Except JsError (List JSVal × Int) :=
  match scanServer text language with
  | .error e => .error e
  | .ok data => .ok (scanResultsOf data, scanOriginalLengthOf data text)

/-- The zip of `exists[]` against `question_ids[]` inside
`SottakuClient.getFlashcardMembership` (stops at the shorter array; only
strict `true` flags count; ids that do not parse are dropped). -/
def buildIncluded : List JSVal → List JSVal → List Int
  | .bool true :: ex, q :: qs =>
    (match jsParseInt q with
      | some id => [id]
      | none => []) ++ buildIncluded ex qs
  | _ :: ex, _ :: qs => buildIncluded ex qs
  | _, _ => []

/-- Model of `SottakuClient.getFlashcardMembership` (the returned list stands for the
`Set` of saved question ids). -/
def clientGetFlashcardMembership
    (memServer : List Int → JStr → Except JsError JSVal)
    (questionIds : List Int) (language : JStr) : Except JsError (List Int) :=
  match memServer questionIds language with
  | .error e => .error e
  | .ok data =>
    match getField data "exists", getField data "question_ids" with
    | .arr ex, .arr qids => .ok (buildIncluded ex qids)
    | _, _ => .ok []

/-! ## Per-language fetch (`_fetchLanguageEntries`,
`_fetchLanguageEntriesWithVariants`, `_buildQueryVariants`) -/

/-- A query variant (`{query, sourceText, originalTextLength}`); the length
is `none` for JavaScript `null`/`undefined`/non-number. -/
structure QueryVariant where
  query : JStr
  sourceText : JStr
  originalTextLength : Option Int
deriving Repr, DecidableEq

/-- The oracles standing for the external collaborators: the remote service
(scan / membership / supported-languages endpoints), the deinflection
provider, and the platform `URL` constructor. -/
structure Oracles where
  scanServer : JStr → JStr → Except JsError JSVal
  memServer : List Int → JStr → Except JsError JSVal
  supportedServer : Except JsError JSVal
  urlRes : JStr → JStr → Option JStr

/-- Model of `matchLengthOverride` argument passed to `_createEntry` from
`_fetchLanguageEntries` (the `originalTextLength` variant field as a
JavaScript value). -/
def otlToJS : Option Int → JSVal
  | some n => .num n
  | none => .undefined

/-- The positive-integer question-id collection inside
`_fetchLanguageEntries` (`.map(parseInt).filter(isFinite && > 0)`). -/
def scanQuestionIds (limitedResults : List JSVal) : List Int :=
  (limitedResults.map (fun item => jsParseInt (getField item "id"))).filterMap
    (fun parsed => match parsed with
      | some id => if 0 < id then some id else none
      | none => none)

/-- The `result.in_flashcards = true` stamp applied when the parsed id is in
the membership set. -/
def stampInFlashcards (inFlashcards : List Int) (r : JSVal) : JSVal :=
  match jsParseInt (getField r "id") with
  | some id => if id ∈ inFlashcards then setField r "in_flashcards" (.bool true) else r
  | none => r

/-- The conditional batched-membership call: skipped (`none`) when there are
no positive-integer question ids or no auth token is configured. -/
def membershipAttempt (o : Oracles) (authToken language : JStr)
    (questionIds : List Int) : Option (Except JsError (List Int)) :=
  if questionIds ≠ [] ∧ authToken ≠ [] then
    some (clientGetFlashcardMembership o.memServer questionIds language)
  else none

/-- The membership set used for stamping: empty when the call was skipped or
failed (`catch ... NOP`). -/
def membershipSet : Option (Except JsError (List Int)) → List Int
  | some (.ok s) => s
  | some (.error _) => []
  | none => []

/-- The network requests issued by the membership step. -/
def membershipLog (questionIds : List Int) (language : JStr) :
    Option (Except JsError (List Int)) → List NetRequest
  | some _ => [.flashcardMembership questionIds language]
  | none => []

/-- Model of `_fetchLanguageEntries({apiOrigin, language, maxResults, query,
sourceText, originalTextLength})`, returning the result together with the
network requests issued. -/
def fetchLanguageEntries (o : Oracles) (authToken : JStr)
    (apiOrigin language : JStr) (maxResults : Int)
    (query sourceText : JStr) (originalTextLength : Option Int) :
    Except JsError LanguageResult × List NetRequest :=
  let normalizedQuery := jsTrim query
  let normalizedSource := jsTrim (jsOrChars sourceText (jsOrChars normalizedQuery []))
  if normalizedQuery = [] then
    (.ok ⟨language, [], (normalizedSource.length : Int)⟩, [])
  else
    match clientScan o.scanServer normalizedQuery language with
    | .error e =>
      let lowered := jsToLower e.message
      if jsIncludes lowered "402".toList ||
         jsIncludes lowered "pro subscription".toList ||
         jsIncludes lowered "upgrade".toList then
        (.error upgradeRequiredError, [.scan normalizedQuery language])
      else
        (.error e, [.scan normalizedQuery language])
    | .ok (scanResults, scanOriginalLength) =>
      let limitedResults := scanResults.take (max 1 maxResults).toNat
      let questionIds := scanQuestionIds limitedResults
      let memAttempt := membershipAttempt o authToken language questionIds
      let inFlashcards := membershipSet memAttempt
      let memLog := membershipLog questionIds language memAttempt
      let entries := limitedResults.mapIdx (fun i r =>
        let stamped := stampInFlashcards inFlashcards r
        createEntry o.urlRes stamped stamped language apiOrigin normalizedQuery i
          normalizedSource (otlToJS originalTextLength))
      (.ok ⟨language, entries,
        match originalTextLength with
        | some n => n
        | none => scanOriginalLength⟩,
       [.scan normalizedQuery language] ++ memLog)

/-- The variant loop inside `_fetchLanguageEntriesWithVariants`
(`fallback` is the `fallbackResult` accumulator, `defaultOTL` the
`resolvedVariants[0]?.originalTextLength ?? 0` default). -/
def fetchVariantsLoop (o : Oracles) (authToken apiOrigin language : JStr)
    (maxResults : Int) (fallback : Option LanguageResult) (defaultOTL : Int)
    (log : List NetRequest) :
    List QueryVariant → Except JsError LanguageResult × List NetRequest
  | [] =>
    (.ok (fallback.getD ⟨language, [], defaultOTL⟩), log)
  | v :: rest =>
    match fetchLanguageEntries o authToken apiOrigin language maxResults
      v.query v.sourceText v.originalTextLength with
    | (.error e, l) => (.error e, log ++ l)
    | (.ok lr, l) =>
      if lr.entries ≠ [] then (.ok lr, log ++ l)
      else
        fetchVariantsLoop o authToken apiOrigin language maxResults
          (match fallback with
            | none => some lr
            | some f => some f) defaultOTL (log ++ l) rest

/-- Model of `_fetchLanguageEntriesWithVariants`. -/
def fetchLanguageEntriesWithVariants (o : Oracles) (authToken apiOrigin language : JStr)
    (maxResults : Int) (variants : List QueryVariant) :
    Except JsError LanguageResult × List NetRequest :=
  let resolvedVariants := if variants ≠ [] then variants else [⟨[], [], some 0⟩]
  let defaultOTL : Int := match resolvedVariants.head? with
    | some v => v.originalTextLength.getD 0
    | none => 0
  fetchVariantsLoop o authToken apiOrigin language maxResults none defaultOTL [] resolvedVariants

/-- One `(originalText, deinflectedText)` pair returned by the deinflection
provider. -/
structure TranslatorVariant where
  originalText : JStr
  deinflectedText : JStr
deriving Repr, DecidableEq

/-- The deinflection provider: `none` models an absent provider; the function
models `translator.getDeinflectionTextVariants(normalizedText, options)`
(the options record is forwarded unchanged and does not affect the control
flow modelled here). -/
abbrev Translator := Option (JStr → Except JsError (List TranslatorVariant))

/-- Model of `_buildQueryVariants(text, language, findTermsOptions)`. -/
def buildQueryVariants (translator : Translator) (text : JStr) : List QueryVariant :=
  let normalizedText := jsTrim text
  let variants : List QueryVariant :=
    match translator with
    | some getVariants =>
      match getVariants normalizedText with
      | .ok translatorVariants =>
        match translatorVariants.find?
          (fun tv => (jsTrim tv.originalText).length == normalizedText.length) with
        | some fullLengthVariant =>
          [⟨jsTrim fullLengthVariant.deinflectedText, jsTrim fullLengthVariant.originalText, none⟩]
        | none => []
      | .error _ => []
    | none => []
  if variants = [] then [⟨normalizedText, normalizedText, none⟩] else variants

/-! ## Cross-language interleaver (`_interleaveLanguageEntries`) -/

/-- The inner `for (const {entries} of languageResults)` round: pushes the
entry at `index` from every list that still has one, breaking out as soon as
the output reaches `maxResults`; the second component is the `added` flag. -/
def interleaveRound (index maxResults : Nat) :
    List LanguageResult → List DictionaryEntry → Bool →
    List DictionaryEntry × Bool
  | [], acc, added => (acc, added)
  | lr :: rest, acc, added =>
    if h : index < lr.entries.length then
      let acc2 := acc ++ [lr.entries[index]]
      if maxResults ≤ acc2.length then (acc2, true)
      else interleaveRound index maxResults rest acc2 true
    else interleaveRound index maxResults rest acc added

/-- The `while (dictionaryEntries.length < maxResults && added)` loop, with
`fuel` bounding the number of iterations (the caller passes one more than the
longest entry list, which the loop never exceeds: once `index` passes every
list's length a round adds nothing and the loop stops). -/
def interleaveLoop (languageResults : List LanguageResult) (maxResults : Nat) :
    Nat → List DictionaryEntry → Nat → List DictionaryEntry
  | _, acc, 0 => acc
  | index, acc, fuel + 1 =>
    if acc.length < maxResults then
      let p := interleaveRound index maxResults languageResults acc false
      if p.2 then interleaveLoop languageResults maxResults (index + 1) p.1 fuel
      else p.1
    else acc

/-- Length of the longest per-language entry list. -/
def maxEntriesLen (languageResults : List LanguageResult) : Nat :=
  languageResults.foldr (fun lr m => max lr.entries.length m) 0

/-- Model of `_interleaveLanguageEntries(languageResults, maxResults)`. -/
def interleaveLanguageEntries (languageResults : List LanguageResult)
    (maxResults : Nat) : List DictionaryEntry :=
  interleaveLoop languageResults maxResults 0 [] (maxEntriesLen languageResults + 1)

/-- Specification-side round-robin merge: the rank-`i` column is the entries
at index `i` of every language that still has one, in language order. -/
def column (languageResults : List LanguageResult) (i : Nat) : List DictionaryEntry :=
  languageResults.filterMap (fun lr => lr.entries[i]?)

/-- Specification-side: all columns from rank `index` for `k` rounds,
concatenated in round order. -/
def roundRobinFrom (languageResults : List LanguageResult) : Nat → Nat → List DictionaryEntry
  | _, 0 => []
  | index, k + 1 => column languageResults index ++ roundRobinFrom languageResults (index + 1) k

/-- Specification-side round-robin merge of the claim: scan the language
lists in fixed order taking the entry at the current rank from each list that
still has one, advancing the rank after each full round until every list is
exhausted, truncated to `maxResults`. -/
def roundRobinMergeSpec (languageResults : List LanguageResult) (maxResults : Nat) :
    List DictionaryEntry :=
  (roundRobinFrom languageResults 0 (maxEntriesLen languageResults)).take maxResults

/-! ## Reported original text length (`_resolveOriginalTextLength`) -/

/-- The per-entry step of the second loop in `_resolveOriginalTextLength`:
a truthy (nonzero) `matchLength` contributes itself, otherwise the first
headword's term length contributes (entries without headwords contribute
nothing; `_createEntry` always produces one). -/
def resolveLengthStep (acc : Int) (e : DictionaryEntry) : Int :=
  match e.sottaku.matchLength with
  | some n =>
    if n ≠ 0 then max acc n
    else match e.headwords.head? with
      | some hw => max acc (hw.term.length : Int)
      | none => acc
  | none =>
    match e.headwords.head? with
    | some hw => max acc (hw.term.length : Int)
    | none => acc

/-- Model of `_resolveOriginalTextLength(languageResults, dictionaryEntries, query)`.
Each `LanguageResult.originalTextLength` is a finite number by construction,
so the `typeof`/`isFinite` guard is statically satisfied.  The per-entry
branch uses the truthiness test `if (metadata?.matchLength)` — a `0` match
length is falsy and falls through to the headword length. -/
def resolveOriginalTextLength (languageResults : List LanguageResult)
    (dictionaryEntries : List DictionaryEntry) (query : JStr) : Int :=
  let m1 := languageResults.foldl (fun acc lr => max acc lr.originalTextLength) 0
  if 0 < m1 then m1
  else
    let m2 := dictionaryEntries.foldl resolveLengthStep 0
    if 0 < m2 then m2 else (query.length : Int)

/-- The claim's reading of the priority order: the maximum of the languages'
lengths, then the maximum of the entries' known match lengths, then the
maximum of the entries' first-headword term lengths, then the query length —
the first nonzero value winning. -/
def claimOriginalTextLengthSpec (languageResults : List LanguageResult)
    (dictionaryEntries : List DictionaryEntry) (query : JStr) : Int :=
  let v1 := languageResults.foldl (fun acc lr => max acc lr.originalTextLength) 0
  let v2 := (dictionaryEntries.filterMap (fun e => e.sottaku.matchLength)).foldl max 0
  let v3 := (dictionaryEntries.filterMap
    (fun e => (e.headwords.head?).map (fun hw => (hw.term.length : Int)))).foldl max 0
  if v1 ≠ 0 then v1
  else if v2 ≠ 0 then v2
  else if v3 ≠ 0 then v3
  else (query.length : Int)

/-! ## Supported-language lifecycle (`_ensureSupportedLanguages`,
`_normalizeSupportedLanguagesResponse`) -/

/-- Model of `_normalizeSupportedLanguagesResponse(response)`. -/
def normalizeSupportedLanguagesResponse (response : JSVal) : List JStr :=
  let candidates :=
    (match getField response "languages" with
      | .arr xs => xs
      | _ => []) ++
    (match getField response "supported_languages" with
      | .arr xs => xs
      | _ => []) ++
    (match getField response "admin_only_languages" with
      | .arr xs => xs
      | _ => [])
  (candidates.foldl (fun st v =>
    match v with
    | .str s =>
      let trimmed := jsTrim s
      if trimmed = [] then st
      else if trimmed ∈ st.1 then st
      else (trimmed :: st.1, st.2 ++ [trimmed])
    | _ => st) ([], [])).2

/-- Model of `_ensureSupportedLanguages()` under the sequential (non-overlapping)
call model: between completed calls `this._supportedLanguagesPromise` is
`null` (its `finally` clears it), so a call with a token always starts a new
`getSupportedLanguages` request; the in-flight promise deduplicates only
overlapping calls, which this atomic model does not exhibit.  `st` is the
current `this._supportedLanguages`; the result is the new cache plus the
requests issued. -/
def ensureSupportedLanguages (st : List JStr) (authToken : JStr)
    (supportedServer : Except JsError JSVal) : List JStr × List NetRequest :=
  if authToken = [] then (SOTTAKU_SUPPORTED_LANGUAGES, [])
  else
    match supportedServer with
    | .ok response =>
      let normalized := normalizeSupportedLanguagesResponse response
      (if normalized ≠ [] then normalized else SOTTAKU_SUPPORTED_LANGUAGES,
       [.supportedLanguages])
    | .error _ =>
      (if st ≠ [] then st else SOTTAKU_SUPPORTED_LANGUAGES, [.supportedLanguages])

/-- Model of `configure(options)` effect on the supported-language cache: with a token
it kicks off `_ensureSupportedLanguages`, otherwise it resets the cache to
the static default. -/
def configureSupportedLanguages (st : List JStr) (authToken : JStr)
    (supportedServer : Except JsError JSVal) : List JStr × List NetRequest :=
  if authToken ≠ [] then ensureSupportedLanguages st authToken supportedServer
  else (SOTTAKU_SUPPORTED_LANGUAGES, [])

/-! ## Orchestrator (`findTerms`) -/

/-- The configuration snapshot read by `findTerms` (`options.sottaku` and
`options.general`). -/
structure Config where
  enabled : Bool
  authToken : JStr
  apiBaseUrl : JStr
  languageMode : JStr
  preferredLanguages : JSVal
  defaultLanguage : JStr
  maxResults : Int
deriving Repr

/-- The result pair of `findTerms`. -/
structure FindTermsResult where
  dictionaryEntries : List DictionaryEntry
  originalTextLength : Int
deriving Repr, DecidableEq

/-- The sequential `for (const language of languages)` loop of `findTerms`:
build variants then fetch with fallback, aborting on the first error. -/
def fetchAllLanguages (o : Oracles) (translator : Translator) (authToken apiOrigin : JStr)
    (maxResults : Int) (query : JStr) :
    List JStr → Except JsError (List LanguageResult) × List NetRequest
  | [] => (.ok [], [])
  | language :: rest =>
    let variants := buildQueryVariants translator query
    match fetchLanguageEntriesWithVariants o authToken apiOrigin language maxResults variants with
    | (.error e, l) => (.error e, l)
    | (.ok lr, l) =>
      match fetchAllLanguages o translator authToken apiOrigin maxResults query rest with
      | (.error e, l2) => (.error e, l ++ l2)
      | (.ok lrs, l2) => (.ok (lr :: lrs), l ++ l2)

/-- Model of `Math.max(1, general.maxResults || 32)` (the `|| 32` catches the falsy
`0`). -/
def resolvedMaxResults (maxResults : Int) : Int :=
  max 1 (if maxResults = 0 then 32 else maxResults)

/-- Model of `findTerms(text, findTermsOptions)`.  `cfg = none` models the
unconfigured state; `st` is the current supported-language cache;
`getOrigin` models `this._getOrigin` (the `URL` platform call with its
`catch` fallback, hence a total string function).  The second component is
the list of network requests issued. -/
def findTerms (cfg : Option Config) (st : List JStr) (o : Oracles)
    (translator : Translator) (getOrigin : JStr → JStr) (text : JStr) :
    Except JsError FindTermsResult × List NetRequest :=
  match cfg with
  | none => (.error optionsNotConfiguredError, [])
  | some c =>
    if !c.enabled then (.ok ⟨[], (text.length : Int)⟩, [])
    else if c.authToken = [] then (.error signInRequiredError, [])
    else
      let ensured := ensureSupportedLanguages st c.authToken o.supportedServer
      let query := jsTrim text
      if query = [] then (.ok ⟨[], 0⟩, ensured.2)
      else
        let languages := resolveLanguages ensured.1 query c.languageMode
          c.preferredLanguages c.defaultLanguage
        let maxResults := resolvedMaxResults c.maxResults
        let apiOrigin := getOrigin c.apiBaseUrl
        match fetchAllLanguages o translator c.authToken apiOrigin maxResults query languages with
        | (.error e, l) => (.error e, ensured.2 ++ l)
        | (.ok languageResults, l) =>
          let dictionaryEntries := interleaveLanguageEntries languageResults maxResults.toNat
          (.ok ⟨dictionaryEntries,
            resolveOriginalTextLength languageResults dictionaryEntries query⟩,
           ensured.2 ++ l)

/-! ## Concrete instances and specification-side definitions used by the
claim theorems -/

/-- The first headword's term length of an entry (`0` when there is no
headword), as an integer. -/
def headwordTermLength (e : DictionaryEntry) : Int :=
  match e.headwords.head? with
  | some hw => (hw.term.length : Int)
  | none => 0

/-- An entry's contribution to the second tier of the amended resolution:
its nonzero match length, else its first headword's term length. -/
def entryLengthContribution (e : DictionaryEntry) : Int :=
  match e.sottaku.matchLength with
  | some n => if n ≠ 0 then n else headwordTermLength e
  | none => headwordTermLength e

/-- The amended resolution order: the maximum of the languages' reported
lengths if positive; otherwise the maximum over entries of each entry's
per-entry value (nonzero match length, else first-headword term length) if
positive; otherwise the query's length. -/
def amendedOriginalTextLengthSpec (languageResults : List LanguageResult)
    (dictionaryEntries : List DictionaryEntry) (query : JStr) : Int :=
  let v1 := (languageResults.map (fun lr => lr.originalTextLength)).foldl max 0
  let v2 := (dictionaryEntries.map entryLengthContribution).foldl max 0
  if 0 < v1 then v1 else if 0 < v2 then v2 else (query.length : Int)

def c8RawA : JSVal :=
  .obj [("match_length", .num 2), ("kanji_representation", .str "abcdefghi".toList)]

def c8RawB : JSVal :=
  .obj [("kanji_representation", .str "abcde".toList)]

def c8EntryA : DictionaryEntry :=
  createEntry (fun _ _ => none) c8RawA c8RawA "ja".toList "".toList "q".toList 0
    "q".toList .undefined

def c8EntryB : DictionaryEntry :=
  createEntry (fun _ _ => none) c8RawB c8RawB "ja".toList "".toList "q".toList 1
    "q".toList .undefined

def c4Config : Config :=
  { enabled := true
    authToken := "tok".toList
    apiBaseUrl := "https://sottaku.app/api/v1".toList
    languageMode := "auto".toList
    preferredLanguages := .arr []
    defaultLanguage := "ja".toList
    maxResults := 32 }

def c4Oracles : Oracles :=
  { scanServer := fun _ _ => .ok (.obj [])
    memServer := fun _ _ => .ok (.obj [])
    supportedServer := .ok (.obj [])
    urlRes := fun _ _ => none }

/-! ## General lemmas about trimming -/

theorem jsTrim_eq_rdropWhile (s : JStr) :
    jsTrim s = List.rdropWhile jsIsWhite (s.dropWhile jsIsWhite) := rfl

theorem dropWhile_eq_self_of_append (p : Char → Bool) (r u : JStr)
    (h : List.dropWhile p (r ++ u) = r ++ u) : List.dropWhile p r = r := by
  cases r with
  | nil => simp
  | cons c cs =>
    have hc : p c = false := by
      cases hpc : p c with
      | false => rfl
      | true =>
        exfalso
        rw [List.cons_append, List.dropWhile_cons, hpc] at h
        simp only [if_true] at h
        have hlen := congrArg List.length h
        have hle := (List.dropWhile_sublist (l := cs ++ u) p).length_le
        simp [List.length_append] at hlen hle
        omega
    rw [List.dropWhile_cons, hc]
    simp

theorem jsTrim_idem (s : JStr) : jsTrim (jsTrim s) = jsTrim s := by
  have hT : List.dropWhile jsIsWhite (jsTrim s) = jsTrim s := by
    rcases List.rdropWhile_prefix jsIsWhite (s.dropWhile jsIsWhite) with ⟨u, hu⟩
    rw [jsTrim_eq_rdropWhile]
    refine dropWhile_eq_self_of_append _ _ u ?_
    rw [hu]
    exact List.dropWhile_idempotent jsIsWhite s
  calc jsTrim (jsTrim s)
      = List.rdropWhile jsIsWhite (List.dropWhile jsIsWhite (jsTrim s)) :=
        jsTrim_eq_rdropWhile _
    _ = List.rdropWhile jsIsWhite (jsTrim s) := by rw [hT]
    _ = List.rdropWhile jsIsWhite (List.rdropWhile jsIsWhite (s.dropWhile jsIsWhite)) := by
        rw [jsTrim_eq_rdropWhile]
    _ = List.rdropWhile jsIsWhite (s.dropWhile jsIsWhite) :=
        List.rdropWhile_idempotent jsIsWhite _
    _ = jsTrim s := (jsTrim_eq_rdropWhile s).symm

/-! ## C9: the query-variant builder -/

/-- Claim C9 counterexample: with a provider whose full-length variant has an
empty `deinflectedText`, the single returned variant's query is the empty
string, refuting "every returned variant's query is non-empty" (the input's
trimmed form `"abc"` is non-empty and the provider did not fail). -/
theorem c9_empty_query_counterexample :
    buildQueryVariants
      (some (fun _ => .ok [⟨"abc".toList, "".toList⟩])) "abc".toList
      = [⟨[], "abc".toList, none⟩] := by
  rfl

/-- Claim C9 (amended): for non-empty trimmed input and any provider
behaviour, `_buildQueryVariants` returns a non-empty list, provider failure
(or absence, or no full-length variant) never propagates and yields the raw
trimmed input as the fallback variant, and every returned variant's query and
source text are trimmed; the query is moreover non-empty unless the provider
returned a full-length variant whose deinflected text trims to empty. -/
theorem c9_variant_builder (translator : Translator) (text : JStr)
    (h : jsTrim text ≠ []) :
    buildQueryVariants translator text ≠ [] ∧
    (∀ v ∈ buildQueryVariants translator text,
      v.query = jsTrim v.query ∧ v.sourceText = jsTrim v.sourceText) ∧
    (translator = none →
      buildQueryVariants translator text = [⟨jsTrim text, jsTrim text, none⟩]) ∧
    (∀ f e, translator = some f → f (jsTrim text) = .error e →
      buildQueryVariants translator text = [⟨jsTrim text, jsTrim text, none⟩]) ∧
    (∀ v ∈ buildQueryVariants translator text, v.query = [] →
      ∃ f tvs fl, translator = some f ∧ f (jsTrim text) = .ok tvs ∧
        tvs.find? (fun tv => (jsTrim tv.originalText).length == (jsTrim text).length)
          = some fl ∧
        jsTrim fl.deinflectedText = []) := by
  cases translator with
  | none =>
    have hbv : buildQueryVariants none text = [⟨jsTrim text, jsTrim text, none⟩] := rfl
    refine ⟨?_, ?_, ?_, ?_, ?_⟩
    · rw [hbv]; exact List.cons_ne_nil _ _
    · intro v hv
      rw [hbv, List.mem_singleton] at hv
      subst hv
      exact ⟨(jsTrim_idem text).symm, (jsTrim_idem text).symm⟩
    · intro _; exact hbv
    · intro g e hg _; exact Option.noConfusion hg
    · intro v hv hq
      rw [hbv, List.mem_singleton] at hv
      subst hv
      exact absurd hq h
  | some f =>
    cases hf : f (jsTrim text) with
    | error e =>
      have hbv : buildQueryVariants (some f) text = [⟨jsTrim text, jsTrim text, none⟩] := by
        simp [buildQueryVariants, hf]
      refine ⟨?_, ?_, ?_, ?_, ?_⟩
      · rw [hbv]; exact List.cons_ne_nil _ _
      · intro v hv
        rw [hbv, List.mem_singleton] at hv
        subst hv
        exact ⟨(jsTrim_idem text).symm, (jsTrim_idem text).symm⟩
      · intro hnone; exact Option.noConfusion hnone
      · intro g e' hg he'
        cases hg
        exact hbv
      · intro v hv hq
        rw [hbv, List.mem_singleton] at hv
        subst hv
        exact absurd hq h
    | ok tvs =>
      cases hfind : tvs.find?
          (fun tv => (jsTrim tv.originalText).length == (jsTrim text).length) with
      | none =>
        have hbv : buildQueryVariants (some f) text = [⟨jsTrim text, jsTrim text, none⟩] := by
          simp [buildQueryVariants, hf, hfind]
        refine ⟨?_, ?_, ?_, ?_, ?_⟩
        · rw [hbv]; exact List.cons_ne_nil _ _
        · intro v hv
          rw [hbv, List.mem_singleton] at hv
          subst hv
          exact ⟨(jsTrim_idem text).symm, (jsTrim_idem text).symm⟩
        · intro hnone; exact Option.noConfusion hnone
        · intro g e' hg he'
          cases hg
          rw [hf] at he'
          exact Except.noConfusion he'
        · intro v hv hq
          rw [hbv, List.mem_singleton] at hv
          subst hv
          exact absurd hq h
      | some fl =>
        have hbv : buildQueryVariants (some f) text
            = [⟨jsTrim fl.deinflectedText, jsTrim fl.originalText, none⟩] := by
          simp [buildQueryVariants, hf, hfind]
        refine ⟨?_, ?_, ?_, ?_, ?_⟩
        · rw [hbv]; exact List.cons_ne_nil _ _
        · intro v hv
          rw [hbv, List.mem_singleton] at hv
          subst hv
          exact ⟨(jsTrim_idem _).symm, (jsTrim_idem _).symm⟩
        · intro hnone; exact Option.noConfusion hnone
        · intro g e' hg he'
          cases hg
          rw [hf] at he'
          exact Except.noConfusion he'
        · intro v hv hq
          rw [hbv, List.mem_singleton] at hv
          subst hv
          exact ⟨f, tvs, fl, rfl, hf, hfind, hq⟩

/-- Witness for C9's amended theorem at a concrete input (absent provider,
input `"abc"`). -/
theorem c9_variant_builder_witness :
    buildQueryVariants none "abc".toList ≠ [] ∧
    (∀ v ∈ buildQueryVariants none "abc".toList,
      v.query = jsTrim v.query ∧ v.sourceText = jsTrim v.sourceText) ∧
    ((none : Translator) = none →
      buildQueryVariants none "abc".toList
        = [⟨jsTrim "abc".toList, jsTrim "abc".toList, none⟩]) ∧
    (∀ f e, (none : Translator) = some f → f (jsTrim "abc".toList) = .error e →
      buildQueryVariants none "abc".toList
        = [⟨jsTrim "abc".toList, jsTrim "abc".toList, none⟩]) ∧
    (∀ v ∈ buildQueryVariants none "abc".toList, v.query = [] →
      ∃ f tvs fl, (none : Translator) = some f ∧ f (jsTrim "abc".toList) = .ok tvs ∧
        tvs.find?
          (fun tv => (jsTrim tv.originalText).length == (jsTrim "abc".toList).length)
          = some fl ∧
        jsTrim fl.deinflectedText = []) :=
  c9_variant_builder none "abc".toList (by decide)

/-! ## C10: entry normalisation is total with explicit fallbacks -/

/-- Claim C10: `_createEntry` is total on arbitrary raw values (the model is
a total function; every raw value, including `null` and non-objects, yields
a record with exactly one headword and one definition); and when the raw id
does not parse as a finite integer, the metadata `questionId` is `null`, the
definition `id` falls back to the rank index and the `sequences` entry to
`-1`. -/
theorem c10_create_entry_total (urlRes : JStr → JStr → Option JStr)
    (result info : JSVal) (language apiOrigin query : JStr) (index : Nat)
    (sourceText : JStr) (matchLengthOverride : JSVal) :
    ((createEntry urlRes result info language apiOrigin query index sourceText
        matchLengthOverride).headwords.length = 1 ∧
     (createEntry urlRes result info language apiOrigin query index sourceText
        matchLengthOverride).definitions.length = 1) ∧
    (entryQuestionId result info = none →
      (createEntry urlRes result info language apiOrigin query index sourceText
          matchLengthOverride).sottaku.questionId = none ∧
      (createEntry urlRes result info language apiOrigin query index sourceText
          matchLengthOverride).definitions.map (fun d => d.id) = [(index : Int)] ∧
      (createEntry urlRes result info language apiOrigin query index sourceText
          matchLengthOverride).definitions.map (fun d => d.sequences) = [[-1]]) := by
  refine ⟨⟨rfl, rfl⟩, ?_⟩
  intro h
  refine ⟨?_, ?_, ?_⟩
  · have hq : (createEntry urlRes result info language apiOrigin query index sourceText
        matchLengthOverride).sottaku.questionId = entryQuestionId result info := rfl
    rw [hq, h]
  · have hd : (createEntry urlRes result info language apiOrigin query index sourceText
        matchLengthOverride).definitions.map (fun d => d.id)
        = [match entryQuestionId result info with
            | some q => q
            | none => (index : Int)] := rfl
    rw [hd, h]
  · have hs : (createEntry urlRes result info language apiOrigin query index sourceText
        matchLengthOverride).definitions.map (fun d => d.sequences)
        = [[match entryQuestionId result info with
            | some q => q
            | none => -1]] := rfl
    rw [hs, h]

/-- Witness for C10 at a concrete input: both raw values `null`. -/
theorem c10_create_entry_total_witness :
    (((createEntry (fun _ _ => none) .null .null "ja".toList "o".toList "q".toList 3
        "q".toList .undefined).headwords.length = 1 ∧
      (createEntry (fun _ _ => none) .null .null "ja".toList "o".toList "q".toList 3
        "q".toList .undefined).definitions.length = 1) ∧
     (entryQuestionId .null .null = none →
      (createEntry (fun _ _ => none) .null .null "ja".toList "o".toList "q".toList 3
          "q".toList .undefined).sottaku.questionId = none ∧
      (createEntry (fun _ _ => none) .null .null "ja".toList "o".toList "q".toList 3
          "q".toList .undefined).definitions.map (fun d => d.id) = [(3 : Int)] ∧
      (createEntry (fun _ _ => none) .null .null "ja".toList "o".toList "q".toList 3
          "q".toList .undefined).definitions.map (fun d => d.sequences) = [[-1]])) ∧
    entryQuestionId .null .null = none :=
  ⟨c10_create_entry_total (fun _ _ => none) .null .null "ja".toList "o".toList
    "q".toList 3 "q".toList .undefined, by decide⟩

/-! ## C6: entitlement-error translation -/

/-- Claim C6: when the scan call fails and the error message
case-insensitively contains `"402"`, `"pro subscription"` or `"upgrade"`,
`_fetchLanguageEntries` raises the distinct upgrade-required error; every
other scan error is re-raised unchanged.  Either way the language's fetch
aborts with an error (no partial results), and the abort propagates through
`_fetchLanguageEntriesWithVariants` regardless of remaining variants. -/
theorem c6_upgrade_error_translation (o : Oracles) (authToken apiOrigin language : JStr)
    (maxResults : Int) (query sourceText : JStr) (otl : Option Int) (e : JsError)
    (hq : jsTrim query ≠ [])
    (hs : o.scanServer (jsTrim query) language = .error e) :
    (fetchLanguageEntries o authToken apiOrigin language maxResults query sourceText otl).1
      = .error
        (if jsIncludes (jsToLower e.message) "402".toList ||
            jsIncludes (jsToLower e.message) "pro subscription".toList ||
            jsIncludes (jsToLower e.message) "upgrade".toList
         then upgradeRequiredError else e) ∧
    (∀ (fallback : Option LanguageResult) (defaultOTL : Int) (log : List NetRequest)
        (rest : List QueryVariant),
      (fetchVariantsLoop o authToken apiOrigin language maxResults fallback defaultOTL log
          (⟨query, sourceText, otl⟩ :: rest)).1
        = .error
          (if jsIncludes (jsToLower e.message) "402".toList ||
              jsIncludes (jsToLower e.message) "pro subscription".toList ||
              jsIncludes (jsToLower e.message) "upgrade".toList
           then upgradeRequiredError else e)) := by
  have hfetch :
      (fetchLanguageEntries o authToken apiOrigin language maxResults query sourceText otl)
        = (.error
            (if jsIncludes (jsToLower e.message) "402".toList ||
                jsIncludes (jsToLower e.message) "pro subscription".toList ||
                jsIncludes (jsToLower e.message) "upgrade".toList
             then upgradeRequiredError else e),
           [.scan (jsTrim query) language]) := by
    simp only [fetchLanguageEntries, clientScan, hs, if_neg hq]
    split <;> simp_all
  refine ⟨by rw [hfetch], ?_⟩
  intro fallback defaultOTL log rest
  rw [fetchVariantsLoop]
  rw [hfetch]

/-- Witness for C6 at a concrete input: a transport error mentioning `402`
is translated to the upgrade-required error. -/
theorem c6_upgrade_error_translation_witness :
    ((fetchLanguageEntries
        { scanServer := fun _ _ => .error ⟨false, "HTTP 402 Payment Required".toList⟩
          memServer := fun _ _ => .ok (.obj [])
          supportedServer := .ok (.obj [])
          urlRes := fun _ _ => none }
        "tok".toList "https://sottaku.app".toList "ja".toList 32
        "ab".toList "ab".toList none).1
      = .error
        (if jsIncludes (jsToLower ("HTTP 402 Payment Required".toList)) "402".toList ||
            jsIncludes (jsToLower ("HTTP 402 Payment Required".toList)) "pro subscription".toList ||
            jsIncludes (jsToLower ("HTTP 402 Payment Required".toList)) "upgrade".toList
         then upgradeRequiredError
         else ⟨false, "HTTP 402 Payment Required".toList⟩) ∧
     (∀ (fallback : Option LanguageResult) (defaultOTL : Int) (log : List NetRequest)
        (rest : List QueryVariant),
      (fetchVariantsLoop
        { scanServer := fun _ _ => .error ⟨false, "HTTP 402 Payment Required".toList⟩
          memServer := fun _ _ => .ok (.obj [])
          supportedServer := .ok (.obj [])
          urlRes := fun _ _ => none }
        "tok".toList "https://sottaku.app".toList "ja".toList 32 fallback defaultOTL log
        (⟨"ab".toList, "ab".toList, none⟩ :: rest)).1
        = .error
          (if jsIncludes (jsToLower ("HTTP 402 Payment Required".toList)) "402".toList ||
              jsIncludes (jsToLower ("HTTP 402 Payment Required".toList)) "pro subscription".toList ||
              jsIncludes (jsToLower ("HTTP 402 Payment Required".toList)) "upgrade".toList
           then upgradeRequiredError
           else ⟨false, "HTTP 402 Payment Required".toList⟩))) :=
  c6_upgrade_error_translation
    { scanServer := fun _ _ => .error ⟨false, "HTTP 402 Payment Required".toList⟩
      memServer := fun _ _ => .ok (.obj [])
      supportedServer := .ok (.obj [])
      urlRes := fun _ _ => none }
    "tok".toList "https://sottaku.app".toList "ja".toList 32
    "ab".toList "ab".toList none ⟨false, "HTTP 402 Payment Required".toList⟩
    (by decide) rfl

/-! ## C1: the round-robin interleaver -/

theorem interleaveRound_spec (index maxResults : Nat) :
    ∀ (lrs : List LanguageResult) (acc : List DictionaryEntry) (added : Bool),
      acc.length < maxResults →
      interleaveRound index maxResults lrs acc added
        = (acc ++ (column lrs index).take (maxResults - acc.length),
           added || !(column lrs index).isEmpty) := by
  intro lrs
  induction lrs with
  | nil =>
    intro acc added h
    simp [interleaveRound, column]
  | cons lr rest ih =>
    intro acc added h
    by_cases hidx : index < lr.entries.length
    · have hcol : column (lr :: rest) index = lr.entries[index] :: column rest index := by
        simp only [column]
        exact List.filterMap_cons_some (List.getElem?_eq_getElem hidx)
      rw [interleaveRound, dif_pos hidx, hcol]
      by_cases hfull : maxResults ≤ (acc ++ [lr.entries[index]]).length
      · rw [if_pos hfull]
        have hm : maxResults - acc.length = 1 := by
          rw [List.length_append] at hfull
          simp at hfull
          omega
        rw [hm, List.take_succ_cons, List.take_zero]
        simp
      · rw [if_neg hfull]
        have hlt : (acc ++ [lr.entries[index]]).length < maxResults := by
          omega
        rw [ih (acc ++ [lr.entries[index]]) true hlt]
        have hm : maxResults - acc.length = (maxResults - (acc ++ [lr.entries[index]]).length) + 1 := by
          rw [List.length_append]
          simp
          omega
        rw [hm, List.take_succ_cons]
        simp
    · have hcol : column (lr :: rest) index = column rest index := by
        simp only [column]
        exact List.filterMap_cons_none (List.getElem?_eq_none (Nat.le_of_not_lt hidx))
      rw [interleaveRound, dif_neg hidx, hcol]
      exact ih acc added h

theorem entries_le_maxEntriesLen (lrs : List LanguageResult) :
    ∀ lr ∈ lrs, lr.entries.length ≤ maxEntriesLen lrs := by
  induction lrs with
  | nil => intro lr h; cases h
  | cons a rest ih =>
    intro lr h
    rcases List.mem_cons.mp h with h1 | h2
    · subst h1
      exact Nat.le_max_left _ _
    · exact Nat.le_trans (ih lr h2) (Nat.le_max_right _ _)

theorem column_eq_nil_iff (lrs : List LanguageResult) (i : Nat) :
    column lrs i = [] ↔ ∀ lr ∈ lrs, lr.entries.length ≤ i := by
  simp [column, List.filterMap_eq_nil_iff, List.getElem?_eq_none_iff]

theorem roundRobinFrom_eq_nil (lrs : List LanguageResult) :
    ∀ (k index : Nat), (∀ lr ∈ lrs, lr.entries.length ≤ index) →
      roundRobinFrom lrs index k = [] := by
  intro k
  induction k with
  | zero => intro index _; rfl
  | succ k ih =>
    intro index h
    rw [roundRobinFrom, (column_eq_nil_iff lrs index).mpr h, List.nil_append]
    exact ih (index + 1) (fun lr hm => Nat.le_trans (h lr hm) (Nat.le_succ index))

theorem index_lt_of_column_ne_nil (lrs : List LanguageResult) (i : Nat)
    (h : column lrs i ≠ []) : i < maxEntriesLen lrs := by
  by_contra hle
  refine h ((column_eq_nil_iff lrs i).mpr ?_)
  intro lr hm
  exact Nat.le_trans (entries_le_maxEntriesLen lrs lr hm) (Nat.le_of_not_lt hle)

theorem interleaveLoop_spec (lrs : List LanguageResult) (m : Nat) :
    ∀ (fuel index : Nat) (acc : List DictionaryEntry),
      maxEntriesLen lrs ≤ index + fuel →
      interleaveLoop lrs m index acc fuel
        = acc ++ (roundRobinFrom lrs index (maxEntriesLen lrs - index)).take (m - acc.length) := by
  intro fuel
  induction fuel with
  | zero =>
    intro index acc h
    have h0 : maxEntriesLen lrs - index = 0 := by omega
    rw [interleaveLoop, h0, roundRobinFrom, List.take_nil, List.append_nil]
  | succ fuel ih =>
    intro index acc h
    rw [interleaveLoop]
    by_cases hlen : acc.length < m
    · rw [if_pos hlen]
      simp only [interleaveRound_spec index m lrs acc false hlen]
      by_cases hcol : column lrs index = []
      · have hsnd : (false || !(column lrs index).isEmpty) = false := by
          rw [hcol]
          rfl
        simp only [hsnd, if_false, Bool.false_eq_true]
        have hall : ∀ lr ∈ lrs, lr.entries.length ≤ index :=
          (column_eq_nil_iff lrs index).mp hcol
        rw [roundRobinFrom_eq_nil lrs _ index hall, hcol]
      · have hsnd : (false || !(column lrs index).isEmpty) = true := by
          rw [Bool.false_or, Bool.not_eq_true']
          rw [← Bool.not_eq_true]
          intro hemp
          exact hcol (List.isEmpty_iff.mp (Bool.not_eq_false _ ▸ hemp))
        simp only [hsnd, if_true]
        have hidx : index < maxEntriesLen lrs := index_lt_of_column_ne_nil lrs index hcol
        have hsub : maxEntriesLen lrs - index = (maxEntriesLen lrs - (index + 1)) + 1 := by
          omega
        have hrec := ih (index + 1) (acc ++ (column lrs index).take (m - acc.length))
          (by omega)
        have harg : m - (acc ++ (column lrs index).take (m - acc.length)).length
            = (m - acc.length) - (column lrs index).length := by
          rw [List.length_append, List.length_take]
          rcases Nat.le_total (m - acc.length) (column lrs index).length with hle | hle
          · rw [Nat.min_eq_left hle]
            omega
          · rw [Nat.min_eq_right hle]
            omega
        rw [hrec, harg, hsub, roundRobinFrom]
        rw [List.take_append_eq_append_take, List.append_assoc]
    · rw [if_neg hlen]
      have h0 : m - acc.length = 0 := by omega
      rw [h0, List.take_zero, List.append_nil]

/-- Claim C1: for every list of per-language results and every `maxResults`,
`_interleaveLanguageEntries` computes exactly the round-robin merge (scan the
language lists in fixed order taking the entry at the current rank from each
list that still has one, advance the rank after a full round, stop at
`maxResults` or when a round adds nothing), its output length is at most
`maxResults`, and in particular language A `[a0,a1,a2]` with language B
`[b0,b1]` and `maxResults = 4` merges to `[a0,b0,a1,b1]`. -/
theorem c1_interleave_round_robin :
    (∀ (languageResults : List LanguageResult) (maxResults : Nat),
      interleaveLanguageEntries languageResults maxResults
        = roundRobinMergeSpec languageResults maxResults ∧
      (interleaveLanguageEntries languageResults maxResults).length ≤ maxResults) ∧
    (∀ (a0 a1 a2 b0 b1 : DictionaryEntry) (la lb : JStr) (n1 n2 : Int),
      interleaveLanguageEntries [⟨la, [a0, a1, a2], n1⟩, ⟨lb, [b0, b1], n2⟩] 4
        = [a0, b0, a1, b1]) := by
  constructor
  · intro lrs m
    have heq : interleaveLanguageEntries lrs m = roundRobinMergeSpec lrs m := by
      rw [interleaveLanguageEntries,
        interleaveLoop_spec lrs m (maxEntriesLen lrs + 1) 0 [] (by omega)]
      rw [roundRobinMergeSpec]
      simp
    refine ⟨heq, ?_⟩
    rw [heq, roundRobinMergeSpec]
    exact List.length_take_le _ _
  · intro a0 a1 a2 b0 b1 la lb n1 n2
    rfl

/-! ## C8: resolution of the reported original text length -/

/-- Claim C8 counterexample: with no language-reported length, one entry with
known match length `2` and one entry without a match length whose headword
term has length `5`, the code reports `5` (per-entry mixing of match length
and headword length), while the claim's strict priority order ("maximum of
the entries' known match lengths" first, nonzero wins) would report `2`. -/
theorem c8_priority_counterexample :
    resolveOriginalTextLength [] [c8EntryA, c8EntryB] [] = 5 ∧
    claimOriginalTextLengthSpec [] [c8EntryA, c8EntryB] [] = 2 ∧
    resolveOriginalTextLength [] [c8EntryA, c8EntryB] []
      ≠ claimOriginalTextLengthSpec [] [c8EntryA, c8EntryB] [] := by
  refine ⟨by decide, by decide, by decide⟩

theorem resolveLengthStep_eq (acc : Int) (e : DictionaryEntry) (h : 0 ≤ acc) :
    resolveLengthStep acc e = max acc (entryLengthContribution e) := by
  cases hml : e.sottaku.matchLength with
  | none =>
    cases hhd : e.headwords.head? with
    | none =>
      simp [resolveLengthStep, entryLengthContribution, headwordTermLength, hml, hhd,
        max_eq_left h]
    | some hw =>
      simp [resolveLengthStep, entryLengthContribution, headwordTermLength, hml, hhd]
  | some n =>
    by_cases hn : n = 0
    · subst hn
      cases hhd : e.headwords.head? with
      | none =>
        simp [resolveLengthStep, entryLengthContribution, headwordTermLength, hml, hhd,
          max_eq_left h]
      | some hw =>
        simp [resolveLengthStep, entryLengthContribution, headwordTermLength, hml, hhd]
    · simp [resolveLengthStep, entryLengthContribution, hml, hn]

theorem foldl_resolveLengthStep_eq (es : List DictionaryEntry) :
    ∀ (acc : Int), 0 ≤ acc →
      es.foldl resolveLengthStep acc = (es.map entryLengthContribution).foldl max acc := by
  induction es with
  | nil => intro acc _; rfl
  | cons e es ih =>
    intro acc h
    rw [List.foldl_cons, List.map_cons, List.foldl_cons,
      resolveLengthStep_eq acc e h]
    exact ih (max acc (entryLengthContribution e)) (le_trans h (le_max_left _ _))

/-- Claim C8 (amended): `_resolveOriginalTextLength` resolves the reported
length as: the maximum of the languages' reported lengths if positive;
otherwise the maximum over entries of each entry's nonzero match length or —
per entry, not as a separate global tier — its first headword's term length,
if positive; otherwise the query's length. -/
theorem c8_original_text_length_resolution (languageResults : List LanguageResult)
    (dictionaryEntries : List DictionaryEntry) (query : JStr) :
    resolveOriginalTextLength languageResults dictionaryEntries query
      = amendedOriginalTextLengthSpec languageResults dictionaryEntries query := by
  rw [resolveOriginalTextLength, amendedOriginalTextLengthSpec]
  rw [List.foldl_map]
  rw [foldl_resolveLengthStep_eq dictionaryEntries 0 le_rfl]

/-! ## C2: per-language fetch with variant fallback -/

theorem fetchVariantsLoop_all_empty (o : Oracles) (authToken apiOrigin language : JStr)
    (maxResults : Int) (dOTL : Int) :
    ∀ (vs : List QueryVariant) (f : LanguageResult) (log : List NetRequest),
      (∀ u ∈ vs, ∃ lr0 l0,
        fetchLanguageEntries o authToken apiOrigin language maxResults
          u.query u.sourceText u.originalTextLength = (.ok lr0, l0) ∧ lr0.entries = []) →
      (fetchVariantsLoop o authToken apiOrigin language maxResults (some f) dOTL log vs).1
        = .ok f := by
  intro vs
  induction vs with
  | nil => intro f log _; rfl
  | cons u vs ih =>
    intro f log hall
    obtain ⟨lr0, l0, hu, hemp⟩ := hall u (List.mem_cons_self u vs)
    rw [fetchVariantsLoop, hu]
    simp only [hemp, ne_eq, not_true_eq_false, if_false]
    exact ih f (log ++ l0) (fun w hw => hall w (List.mem_cons_of_mem u hw))

theorem fetchVariantsLoop_first_success (o : Oracles) (authToken apiOrigin language : JStr)
    (maxResults : Int) (dOTL : Int) (v : QueryVariant) (rest : List QueryVariant)
    (lr : LanguageResult) (l : List NetRequest)
    (hv : fetchLanguageEntries o authToken apiOrigin language maxResults
      v.query v.sourceText v.originalTextLength = (.ok lr, l))
    (hne : lr.entries ≠ []) :
    ∀ (pre : List QueryVariant) (fallback : Option LanguageResult) (log : List NetRequest),
      (∀ u ∈ pre, ∃ lr0 l0,
        fetchLanguageEntries o authToken apiOrigin language maxResults
          u.query u.sourceText u.originalTextLength = (.ok lr0, l0) ∧ lr0.entries = []) →
      (fetchVariantsLoop o authToken apiOrigin language maxResults fallback dOTL log
          (pre ++ v :: rest)).1
        = .ok lr := by
  intro pre
  induction pre with
  | nil =>
    intro fallback log _
    rw [List.nil_append, fetchVariantsLoop, hv]
    simp only [if_pos hne]
  | cons u pre ih =>
    intro fallback log hall
    obtain ⟨lr0, l0, hu, hemp⟩ := hall u (List.mem_cons_self u pre)
    rw [List.cons_append, fetchVariantsLoop, hu]
    simp only [hemp, ne_eq, not_true_eq_false, if_false]
    exact ih _ (log ++ l0) (fun w hw => hall w (List.mem_cons_of_mem u hw))

/-- Claim C2 counterexample: a single variant with query and source text
`"ab"` whose scan succeeds with zero results but a server-reported
`original_text_length` of `0`: every variant yields zero entries and the
first variant's text is non-empty (source length 2), yet the returned
`originalTextLength` is `0`, not the source-text length — refuting the
claim's "equals the first variant's source-text length (not zero)". -/
theorem c2_first_variant_otl_counterexample :
    (fetchLanguageEntriesWithVariants
      { scanServer := fun _ _ =>
          .ok (.obj [("results", .arr []), ("original_text_length", .num 0)])
        memServer := fun _ _ => .ok (.obj [])
        supportedServer := .ok (.obj [])
        urlRes := fun _ _ => none }
      "tok".toList "https://sottaku.app".toList "ja".toList 32
      [⟨"ab".toList, "ab".toList, none⟩]).1
      = .ok ⟨"ja".toList, [], 0⟩ ∧
    (jsTrim "ab".toList).length = 2 ∧ (0 : Int) ≠ ((jsTrim "ab".toList).length : Int) := by
  refine ⟨rfl, by decide, by decide⟩

/-- Claim C2 (amended): `_fetchLanguageEntriesWithVariants` iterates the
variants in order and returns the result of the first variant whose scan
yields at least one entry; if every variant yields zero entries it returns
the first variant's (empty) result.  In that all-empty case the returned
`originalTextLength` is the first variant's fetch result's length, which is:
when the variant's query trims to empty, the trimmed source-or-query text's
length (the fetch returns immediately, issuing no scan and ignoring the
variant's own `originalTextLength` field — the final conjunct exhibits this
for a variant carrying the finite length 7 whose source trims to length 3);
otherwise the variant's own `originalTextLength` when that is a finite
number, else the scan response's reported original text length
(`original_text_length`, defaulting to the query's length when the server
omits a finite number). -/
theorem c2_fetch_with_variants_fallback (o : Oracles) (authToken apiOrigin language : JStr)
    (maxResults : Int) :
    (∀ (pre : List QueryVariant) (v : QueryVariant) (rest : List QueryVariant)
        (lr : LanguageResult) (l : List NetRequest),
      (∀ u ∈ pre, ∃ lr0 l0,
        fetchLanguageEntries o authToken apiOrigin language maxResults
          u.query u.sourceText u.originalTextLength = (.ok lr0, l0) ∧ lr0.entries = []) →
      fetchLanguageEntries o authToken apiOrigin language maxResults
        v.query v.sourceText v.originalTextLength = (.ok lr, l) →
      lr.entries ≠ [] →
      (fetchLanguageEntriesWithVariants o authToken apiOrigin language maxResults
          (pre ++ v :: rest)).1 = .ok lr) ∧
    (∀ (v0 : QueryVariant) (rest : List QueryVariant) (lr0 : LanguageResult)
        (l0 : List NetRequest),
      (∀ u ∈ v0 :: rest, ∃ lr1 l1,
        fetchLanguageEntries o authToken apiOrigin language maxResults
          u.query u.sourceText u.originalTextLength = (.ok lr1, l1) ∧ lr1.entries = []) →
      fetchLanguageEntries o authToken apiOrigin language maxResults
        v0.query v0.sourceText v0.originalTextLength = (.ok lr0, l0) →
      (fetchLanguageEntriesWithVariants o authToken apiOrigin language maxResults
          (v0 :: rest)).1 = .ok lr0) ∧
    (∀ (v : QueryVariant),
      jsTrim v.query = [] →
      fetchLanguageEntries o authToken apiOrigin language maxResults
        v.query v.sourceText v.originalTextLength
        = (.ok ⟨language, [],
            ((jsTrim (jsOrChars v.sourceText (jsOrChars (jsTrim v.query) []))).length : Int)⟩,
           [])) ∧
    (∀ (v : QueryVariant) (data : JSVal) (lr : LanguageResult) (l : List NetRequest),
      jsTrim v.query ≠ [] →
      o.scanServer (jsTrim v.query) language = .ok data →
      fetchLanguageEntries o authToken apiOrigin language maxResults
        v.query v.sourceText v.originalTextLength = (.ok lr, l) →
      lr.originalTextLength
        = (match v.originalTextLength with
            | some n => n
            | none => scanOriginalLengthOf data (jsTrim v.query))) ∧
    (fetchLanguageEntries o authToken apiOrigin language maxResults
        " ".toList "abc".toList (some 7)
      = (.ok ⟨language, [], 3⟩, [])) := by
  refine ⟨?_, ?_, ?_, ?_, ?_⟩
  · intro pre v rest lr l hall hv hne
    rw [fetchLanguageEntriesWithVariants]
    rw [if_pos (by simp)]
    exact fetchVariantsLoop_first_success o authToken apiOrigin language maxResults _
      v rest lr l hv hne pre none [] hall
  · intro v0 rest lr0 l0 hall hv0
    obtain ⟨lr1, l1, hu, hemp⟩ := hall v0 (List.mem_cons_self v0 rest)
    rw [hv0] at hu
    injection hu with h1 h2
    injection h1 with h1
    rw [fetchLanguageEntriesWithVariants]
    rw [if_pos (by simp)]
    rw [fetchVariantsLoop, hv0]
    have hemp0 : lr0.entries = [] := by
      rw [h1]
      exact hemp
    simp only [hemp0, ne_eq, not_true_eq_false, if_false]
    exact fetchVariantsLoop_all_empty o authToken apiOrigin language maxResults _ rest lr0 _
      (fun w hw => hall w (List.mem_cons_of_mem v0 hw))
  · intro v hq
    simp [fetchLanguageEntries, hq]
  · intro v data lr l hq hdata hfetch
    have hscan : clientScan o.scanServer (jsTrim v.query) language
        = .ok (scanResultsOf data, scanOriginalLengthOf data (jsTrim v.query)) := by
      rw [clientScan, hdata]
    rw [fetchLanguageEntries] at hfetch
    rw [if_neg hq] at hfetch
    rw [hscan] at hfetch
    have := congrArg Prod.fst hfetch
    simp only [Prod.fst] at this
    cases htl : v.originalTextLength with
    | none =>
      rw [htl] at this
      have hok := Except.ok.inj this
      rw [← hok]
    | some n =>
      rw [htl] at this
      have hok := Except.ok.inj this
      rw [← hok]
  · rfl

/-- Witness for C2's amended theorem: a single variant `"ab"` whose scan
succeeds with zero results and no server-reported length returns the first
(and only) variant's empty result with the query's length `2`. -/
theorem c2_fetch_with_variants_fallback_witness :
    (fetchLanguageEntriesWithVariants
      { scanServer := fun _ _ => .ok (.obj [("results", .arr [])])
        memServer := fun _ _ => .ok (.obj [])
        supportedServer := .ok (.obj [])
        urlRes := fun _ _ => none }
      "tok".toList "https://sottaku.app".toList "ja".toList 32
      [⟨"ab".toList, "ab".toList, none⟩]).1
      = .ok ⟨"ja".toList, [], 2⟩ :=
  (c2_fetch_with_variants_fallback
    { scanServer := fun _ _ => .ok (.obj [("results", .arr [])])
      memServer := fun _ _ => .ok (.obj [])
      supportedServer := .ok (.obj [])
      urlRes := fun _ _ => none }
    "tok".toList "https://sottaku.app".toList "ja".toList 32).2.1
    ⟨"ab".toList, "ab".toList, none⟩ [] ⟨"ja".toList, [], 2⟩
    [.scan "ab".toList "ja".toList]
    (by
      intro u hu
      rw [List.mem_singleton] at hu
      subst hu
      exact ⟨⟨"ja".toList, [], 2⟩, [.scan "ab".toList "ja".toList], rfl, rfl⟩)
    rfl

/-! ## C7: best-effort flashcard-membership annotation -/

theorem mapIdx_proj_eq_map {α β γ : Type} (F : α → γ) (g : β → γ) :
    ∀ (l : List α) (f : Nat → α → β), (∀ i a, g (f i a) = F a) →
      (l.mapIdx f).map g = l.map F := by
  intro l
  induction l with
  | nil => intro f _; rfl
  | cons a l ih =>
    intro f h
    rw [List.mapIdx_cons, List.map_cons, List.map_cons, h 0 a]
    rw [ih (fun i => f (i + 1)) (fun i a => h (i + 1) a)]

theorem stampInFlashcards_nil (r : JSVal) : stampInFlashcards [] r = r := by
  rw [stampInFlashcards]
  cases jsParseInt (getField r "id") with
  | none => rfl
  | some id => simp

theorem getField_normalizeToObj (v : JSVal) (k : String) :
    getField (normalizeToObj v) k = getField v k := by
  cases v <;> rfl

/-- Computed form of `_fetchLanguageEntries` when the scan succeeds. -/
theorem fetchLanguageEntries_scan_ok (o : Oracles) (authToken apiOrigin language : JStr)
    (maxResults : Int) (query sourceText : JStr) (otl : Option Int) (data : JSVal)
    (hq : jsTrim query ≠ [])
    (hdata : o.scanServer (jsTrim query) language = .ok data) :
    fetchLanguageEntries o authToken apiOrigin language maxResults query sourceText otl
      = (.ok ⟨language,
          ((scanResultsOf data).take (max 1 maxResults).toNat).mapIdx (fun i r =>
            createEntry o.urlRes
              (stampInFlashcards (membershipSet (membershipAttempt o authToken language
                (scanQuestionIds ((scanResultsOf data).take (max 1 maxResults).toNat)))) r)
              (stampInFlashcards (membershipSet (membershipAttempt o authToken language
                (scanQuestionIds ((scanResultsOf data).take (max 1 maxResults).toNat)))) r)
              language apiOrigin (jsTrim query) i
              (jsTrim (jsOrChars sourceText (jsOrChars (jsTrim query) [])))
              (otlToJS otl)),
          match otl with
          | some n => n
          | none => scanOriginalLengthOf data (jsTrim query)⟩,
        [.scan (jsTrim query) language]
          ++ membershipLog
              (scanQuestionIds ((scanResultsOf data).take (max 1 maxResults).toNat))
              language
              (membershipAttempt o authToken language
                (scanQuestionIds ((scanResultsOf data).take (max 1 maxResults).toNat)))) := by
  simp only [fetchLanguageEntries, clientScan, hdata, if_neg hq]

/-- Claim C7 counterexample: with one raw scan result already carrying
`in_flashcards: true` from the server and a failing membership request, the
failure is swallowed but the produced entry's `inFlashcards` flag is `true`,
refuting "every entry's inFlashcards flag equal to false"; the log shows the
membership request was attempted. -/
theorem c7_inflashcards_counterexample :
    ((fetchLanguageEntries
      { scanServer := fun _ _ =>
          .ok (.obj [("results", .arr [.obj [("id", .num 1), ("in_flashcards", .bool true)]])])
        memServer := fun _ _ => .error ⟨false, "network error".toList⟩
        supportedServer := .ok (.obj [])
        urlRes := fun _ _ => none }
      "tok".toList "https://sottaku.app".toList "ja".toList 32
      "ab".toList "ab".toList none).1.map
        (fun r => r.entries.map (fun e => e.sottaku.inFlashcards))) = .ok [true] ∧
    (fetchLanguageEntries
      { scanServer := fun _ _ =>
          .ok (.obj [("results", .arr [.obj [("id", .num 1), ("in_flashcards", .bool true)]])])
        memServer := fun _ _ => .error ⟨false, "network error".toList⟩
        supportedServer := .ok (.obj [])
        urlRes := fun _ _ => none }
      "tok".toList "https://sottaku.app".toList "ja".toList 32
      "ab".toList "ab".toList none).2
      = [.scan "ab".toList "ja".toList, .flashcardMembership [1] "ja".toList] := by
  exact ⟨rfl, rfl⟩

/-- Claim C7 (amended): with a successful scan, the fetch never raises
regardless of the membership oracle's behaviour; the membership request is
skipped exactly when no positive-integer question ids are present or no auth
token is configured; and when the membership request is skipped or fails, the
lookup continues with every entry's `inFlashcards` flag equal to the
truthiness of the raw result's own `in_flashcards` field (hence `false`
whenever the server did not already set it). -/
theorem c7_membership_best_effort (o : Oracles) (authToken apiOrigin language : JStr)
    (maxResults : Int) (query sourceText : JStr) (otl : Option Int) (data : JSVal)
    (hq : jsTrim query ≠ [])
    (hdata : o.scanServer (jsTrim query) language = .ok data) :
    (∃ lr, (fetchLanguageEntries o authToken apiOrigin language maxResults
        query sourceText otl).1 = .ok lr) ∧
    ((scanQuestionIds ((scanResultsOf data).take (max 1 maxResults).toNat) = [] ∨
        authToken = []) →
      (fetchLanguageEntries o authToken apiOrigin language maxResults
          query sourceText otl).2 = [.scan (jsTrim query) language]) ∧
    (∀ res, membershipAttempt o authToken language
        (scanQuestionIds ((scanResultsOf data).take (max 1 maxResults).toNat)) = some res →
      (fetchLanguageEntries o authToken apiOrigin language maxResults
          query sourceText otl).2
        = [.scan (jsTrim query) language,
           .flashcardMembership
             (scanQuestionIds ((scanResultsOf data).take (max 1 maxResults).toNat))
             language]) ∧
    ((∃ err, membershipAttempt o authToken language
          (scanQuestionIds ((scanResultsOf data).take (max 1 maxResults).toNat))
            = some (.error err)) ∨
      membershipAttempt o authToken language
        (scanQuestionIds ((scanResultsOf data).take (max 1 maxResults).toNat)) = none →
      ∀ lr, (fetchLanguageEntries o authToken apiOrigin language maxResults
          query sourceText otl).1 = .ok lr →
        lr.entries.map (fun e => e.sottaku.inFlashcards)
          = ((scanResultsOf data).take (max 1 maxResults).toNat).map
              (fun r => jsTruthy (getField r "in_flashcards"))) := by
  have hmain := fetchLanguageEntries_scan_ok o authToken apiOrigin language maxResults
    query sourceText otl data hq hdata
  refine ⟨?_, ?_, ?_, ?_⟩
  · exact ⟨_, by rw [hmain]⟩
  · intro h
    rw [hmain]
    have hatt : membershipAttempt o authToken language
        (scanQuestionIds ((scanResultsOf data).take (max 1 maxResults).toNat)) = none := by
      rw [membershipAttempt, if_neg]
      tauto
    rw [hatt]
    rfl
  · intro res hres
    rw [hmain]
    rw [hres]
    rfl
  · intro hfail lr hlr
    rw [hmain] at hlr
    have hset : membershipSet (membershipAttempt o authToken language
        (scanQuestionIds ((scanResultsOf data).take (max 1 maxResults).toNat))) = [] := by
      rcases hfail with ⟨err, herr⟩ | hnone
      · rw [herr]; rfl
      · rw [hnone]; rfl
    rw [hset] at hlr
    have hlr' := Except.ok.inj hlr
    rw [← hlr']
    simp only [stampInFlashcards_nil]
    refine mapIdx_proj_eq_map (fun r => jsTruthy (getField r "in_flashcards"))
      (fun (e : DictionaryEntry) => e.sottaku.inFlashcards) _ _ ?_
    intro i a
    show jsTruthy (getField (normalizeToObj a) "in_flashcards")
      = jsTruthy (getField a "in_flashcards")
    rw [getField_normalizeToObj]

/-- Witness for C7's amended theorem: the fetch is `ok` at a concrete oracle
whose membership request fails. -/
theorem c7_membership_best_effort_witness :
    ∃ lr, (fetchLanguageEntries
      { scanServer := fun _ _ =>
          .ok (.obj [("results", .arr [.obj [("id", .num 1)]])])
        memServer := fun _ _ => .error ⟨false, "network error".toList⟩
        supportedServer := .ok (.obj [])
        urlRes := fun _ _ => none }
      "tok".toList "https://sottaku.app".toList "ja".toList 32
      "ab".toList "ab".toList none).1 = .ok lr :=
  (c7_membership_best_effort
    { scanServer := fun _ _ =>
        .ok (.obj [("results", .arr [.obj [("id", .num 1)]])])
      memServer := fun _ _ => .error ⟨false, "network error".toList⟩
      supportedServer := .ok (.obj [])
      urlRes := fun _ _ => none }
    "tok".toList "https://sottaku.app".toList "ja".toList 32
    "ab".toList "ab".toList none
    (.obj [("results", .arr [.obj [("id", .num 1)]])])
    (by decide) rfl).1

/-! ## C5: supported-language lifecycle -/

theorem ensureSupportedLanguages_log (st : List JStr) (authToken : JStr)
    (supportedServer : Except JsError JSVal) (h : authToken ≠ []) :
    (ensureSupportedLanguages st authToken supportedServer).2 = [.supportedLanguages] := by
  cases supportedServer with
  | ok r => simp [ensureSupportedLanguages, h]
  | error e => simp [ensureSupportedLanguages, h]

/-- Claim C5 counterexample: two consecutive (non-overlapping) uses with the
same unchanged token each issue a supported-languages request — the promise
guard is cleared by its `finally`, so the fetch is not "at most once per
token". -/
theorem c5_refetch_counterexample :
    (ensureSupportedLanguages SOTTAKU_SUPPORTED_LANGUAGES "tok".toList
      (.ok (.obj [("languages", .arr [.str "ja".toList, .str "ko".toList])]))).2
      = [.supportedLanguages] ∧
    (ensureSupportedLanguages
      (ensureSupportedLanguages SOTTAKU_SUPPORTED_LANGUAGES "tok".toList
        (.ok (.obj [("languages", .arr [.str "ja".toList, .str "ko".toList])]))).1
      "tok".toList
      (.ok (.obj [("languages", .arr [.str "ja".toList, .str "ko".toList])]))).2
      = [.supportedLanguages] ∧
    [NetRequest.supportedLanguages] ≠ ([] : List NetRequest) := by
  exact ⟨rfl, rfl, by decide⟩

/-- Claim C5 (amended, under the sequential non-overlapping call model): a
supported-languages request is issued on every use while a token is
configured (the in-flight promise deduplicates only concurrent calls, and is
cleared when it settles); the cache is reset to the static default when the
token is cleared (both on use and on `configure`); an empty or unusable
response falls back to the static default; and a fetch failure keeps the
previously cached list, falling back to the static default only when the
cache is empty. -/
theorem c5_supported_languages_lifecycle (st : List JStr) (authToken : JStr)
    (supportedServer : Except JsError JSVal) :
    (authToken = [] →
      ensureSupportedLanguages st authToken supportedServer
        = (SOTTAKU_SUPPORTED_LANGUAGES, [])) ∧
    (authToken ≠ [] →
      (ensureSupportedLanguages st authToken supportedServer).2 = [.supportedLanguages]) ∧
    (∀ resp, authToken ≠ [] → supportedServer = .ok resp →
      (ensureSupportedLanguages st authToken supportedServer).1
        = (if normalizeSupportedLanguagesResponse resp ≠ []
           then normalizeSupportedLanguagesResponse resp
           else SOTTAKU_SUPPORTED_LANGUAGES)) ∧
    (∀ err, authToken ≠ [] → supportedServer = .error err →
      (ensureSupportedLanguages st authToken supportedServer).1
        = (if st ≠ [] then st else SOTTAKU_SUPPORTED_LANGUAGES)) ∧
    (configureSupportedLanguages st [] supportedServer
      = (SOTTAKU_SUPPORTED_LANGUAGES, [])) := by
  refine ⟨?_, ?_, ?_, ?_, ?_⟩
  · intro h
    rw [ensureSupportedLanguages.eq_def, if_pos h]
  · intro h
    exact ensureSupportedLanguages_log st authToken supportedServer h
  · intro resp h hresp
    rw [ensureSupportedLanguages.eq_def, if_neg h, hresp]
  · intro err h herr
    rw [ensureSupportedLanguages.eq_def, if_neg h, herr]
  · rw [configureSupportedLanguages, if_neg (by simp)]

/-- Witness for C5's amended theorem: with the token cleared, the cache is
reset to the static default and no request is issued. -/
theorem c5_supported_languages_lifecycle_witness :
    ensureSupportedLanguages ["fr".toList] [] (.ok .null)
      = (SOTTAKU_SUPPORTED_LANGUAGES, []) :=
  (c5_supported_languages_lifecycle ["fr".toList] [] (.ok .null)).1 rfl

/-! ## C4: empty trimmed input -/

/-- Claim C4 counterexample: in a configured, enabled, authenticated state,
`findTerms` on whitespace-only input returns `{entries: [], originalTextLength: 0}`
but issues one supported-languages network request (the
`_ensureSupportedLanguages` refresh awaited before the empty check), refuting
"issues no network call of any kind before returning". -/
theorem c4_empty_input_network_counterexample :
    findTerms (some c4Config) SOTTAKU_SUPPORTED_LANGUAGES c4Oracles none
      (fun _ => "https://sottaku.app".toList) "   ".toList
      = (.ok ⟨[], 0⟩, [.supportedLanguages]) ∧
    [NetRequest.supportedLanguages] ≠ ([] : List NetRequest) := by
  exact ⟨rfl, by decide⟩

/-- Claim C4 (amended): for every configured, enabled, authenticated state
and every input whose trimmed form is empty, `findTerms` returns
`{entries: [], originalTextLength: 0}` and the only network traffic before
returning is the single supported-languages refresh — no scan, membership,
or other lookup request is issued. -/
theorem c4_empty_input_returns_empty (cfg : Config) (st : List JStr) (o : Oracles)
    (translator : Translator) (getOrigin : JStr → JStr) (text : JStr)
    (hen : cfg.enabled = true) (htok : cfg.authToken ≠ []) (htr : jsTrim text = []) :
    findTerms (some cfg) st o translator getOrigin text
      = (.ok ⟨[], 0⟩, [.supportedLanguages]) ∧
    (∀ r ∈ (findTerms (some cfg) st o translator getOrigin text).2,
      r = NetRequest.supportedLanguages) ∧
    (findTerms (some cfg) st o translator getOrigin text).2.length ≤ 1 := by
  have hmain : findTerms (some cfg) st o translator getOrigin text
      = (.ok ⟨[], 0⟩, [.supportedLanguages]) := by
    rw [findTerms]
    rw [if_neg (by rw [hen]; simp)]
    rw [if_neg htok]
    rw [if_pos htr]
    rw [ensureSupportedLanguages_log st cfg.authToken o.supportedServer htok]
  refine ⟨hmain, ?_, ?_⟩
  · intro r hr
    rw [hmain] at hr
    rw [List.mem_singleton] at hr
    exact hr
  · rw [hmain]
    decide

/-- Witness for C4's amended theorem at a concrete configured state and
whitespace-only input. -/
theorem c4_empty_input_returns_empty_witness :
    findTerms (some c4Config) SOTTAKU_SUPPORTED_LANGUAGES c4Oracles none
      (fun _ => "https://sottaku.app".toList) " \t ".toList
      = (.ok ⟨[], 0⟩, [.supportedLanguages]) :=
  (c4_empty_input_returns_empty c4Config SOTTAKU_SUPPORTED_LANGUAGES c4Oracles none
    (fun _ => "https://sottaku.app".toList) " \t ".toList rfl (by decide) (by decide)).1

/-! ## C3: language resolution -/

theorem supportedFoldStep_inv (st : List JStr × List JStr) (hg : dedupStateInv st)
    (x : JStr) : dedupStateInv (supportedFoldStep st x) := by
  obtain ⟨hnd, hprops, hsub⟩ := hg
  by_cases h1 : jsTrim x = []
  · rw [show supportedFoldStep st x = st by simp [supportedFoldStep, h1]]
    exact ⟨hnd, hprops, hsub⟩
  · by_cases h2 : jsTrim x ∈ st.1
    · rw [show supportedFoldStep st x = st by simp [supportedFoldStep, h1, h2]]
      exact ⟨hnd, hprops, hsub⟩
    · rw [show supportedFoldStep st x = (jsTrim x :: st.1, st.2 ++ [jsTrim x]) by
        simp [supportedFoldStep, h1, h2]]
      have hnotout : jsTrim x ∉ st.2 := fun hmem => h2 (hsub _ hmem)
      refine ⟨?_, ?_, ?_⟩
      · exact List.Nodup.append hnd (List.nodup_singleton _)
          (by simpa [List.disjoint_singleton] using hnotout)
      · intro y hy
        rcases List.mem_append.mp hy with hy | hy
        · exact hprops y hy
        · rw [List.mem_singleton] at hy
          subst hy
          exact ⟨jsTrim_idem x, h1⟩
      · intro y hy
        rcases List.mem_append.mp hy with hy | hy
        · exact List.mem_cons_of_mem _ (hsub y hy)
        · rw [List.mem_singleton] at hy
          subst hy
          exact List.mem_cons_self _ _

theorem foldl_supportedFold_inv (l : List JStr) :
    ∀ st, dedupStateInv st → dedupStateInv (l.foldl supportedFoldStep st) := by
  induction l with
  | nil => intro st h; exact h
  | cons x l ih =>
    intro st h
    rw [List.foldl_cons]
    exact ih _ (supportedFoldStep_inv st h x)

theorem normalizeSupportedLanguagesList_good (supp : List JStr) :
    (normalizeSupportedLanguagesList supp).Nodup ∧
    (∀ x ∈ normalizeSupportedLanguagesList supp, jsTrim x = x ∧ x ≠ []) ∧
    normalizeSupportedLanguagesList supp ≠ [] := by
  rw [normalizeSupportedLanguagesList]
  by_cases h : (supp.foldl supportedFoldStep ([], [])).2 = []
  · rw [if_pos h]
    refine ⟨by decide, ?_, by decide⟩
    intro x hx
    rcases List.mem_cons.mp hx with h1 | h1
    · subst h1; exact ⟨by decide, by decide⟩
    · rw [List.mem_singleton] at h1
      subst h1
      exact ⟨by decide, by decide⟩
  · rw [if_neg h]
    have hinit : dedupStateInv (([], []) : List JStr × List JStr) := by
      refine ⟨List.nodup_nil, ?_, ?_⟩ <;> (intro x hx; cases hx)
    have hinv := foldl_supportedFold_inv supp ([], []) hinit
    exact ⟨hinv.1, hinv.2.1, h⟩

theorem foldl_addLanguage_eq (sN : List JStr) (vs : List JSVal) :
    ∀ st : List JStr × List JStr,
      (vs.foldl (addLanguage sN) st).2 = st.2 ++ claimFilterPref sN vs st.1 := by
  induction vs with
  | nil => intro st; simp [claimFilterPref]
  | cons v vs ih =>
    intro st
    rw [List.foldl_cons]
    cases v with
    | str s =>
      by_cases h1 : jsTrim s = []
      · rw [show addLanguage sN st (.str s) = st by simp [addLanguage, h1]]
        rw [ih st]
        rw [show claimFilterPref sN (.str s :: vs) st.1 = claimFilterPref sN vs st.1 by
          simp [claimFilterPref, h1]]
      · by_cases h2 : jsTrim s ∈ st.1
        · rw [show addLanguage sN st (.str s) = st by simp [addLanguage, h1, h2]]
          rw [ih st]
          rw [show claimFilterPref sN (.str s :: vs) st.1 = claimFilterPref sN vs st.1 by
            simp [claimFilterPref, h1, h2]]
        · by_cases h3 : jsTrim s ∈ sN
          · rw [show addLanguage sN st (.str s)
                = (jsTrim s :: st.1, st.2 ++ [jsTrim s]) by
              simp [addLanguage, h1, h2, h3]]
            rw [ih (jsTrim s :: st.1, st.2 ++ [jsTrim s])]
            rw [show claimFilterPref sN (.str s :: vs) st.1
                = jsTrim s :: claimFilterPref sN vs (jsTrim s :: st.1) by
              simp [claimFilterPref, h1, h2, h3]]
            simp
          · rw [show addLanguage sN st (.str s) = st by simp [addLanguage, h1, h2, h3]]
            rw [ih st]
            rw [show claimFilterPref sN (.str s :: vs) st.1 = claimFilterPref sN vs st.1 by
              simp [claimFilterPref, h1, h2, h3]]
    | null =>
      rw [show addLanguage sN st .null = st from rfl, ih st]
      rfl
    | undefined =>
      rw [show addLanguage sN st .undefined = st from rfl, ih st]
      rfl
    | bool b =>
      rw [show addLanguage sN st (.bool b) = st from rfl, ih st]
      rfl
    | num n =>
      rw [show addLanguage sN st (.num n) = st from rfl, ih st]
      rfl
    | arr xs =>
      rw [show addLanguage sN st (.arr xs) = st from rfl, ih st]
      rfl
    | obj fs =>
      rw [show addLanguage sN st (.obj fs) = st from rfl, ih st]
      rfl

theorem claimFilterPref_mem (sN : List JStr) :
    ∀ (vs : List JSVal) (seen : List JStr) (x : JStr),
      x ∈ claimFilterPref sN vs seen →
      x ∈ sN ∧ x ∉ seen ∧ jsTrim x = x ∧ x ≠ [] := by
  intro vs
  induction vs with
  | nil => intro seen x hx; cases hx
  | cons v vs ih =>
    intro seen x hx
    cases v with
    | str s =>
      by_cases h1 : jsTrim s = []
      · exact ih seen x (by simpa [claimFilterPref, h1] using hx)
      · by_cases h2 : jsTrim s ∈ seen
        · exact ih seen x (by simpa [claimFilterPref, h1, h2] using hx)
        · by_cases h3 : jsTrim s ∈ sN
          · rw [show claimFilterPref sN (.str s :: vs) seen
                = jsTrim s :: claimFilterPref sN vs (jsTrim s :: seen) by
              simp [claimFilterPref, h1, h2, h3]] at hx
            rcases List.mem_cons.mp hx with hx | hx
            · subst hx
              exact ⟨h3, h2, jsTrim_idem s, h1⟩
            · obtain ⟨ha, hb, hc, hd⟩ := ih (jsTrim s :: seen) x hx
              exact ⟨ha, fun hmem => hb (List.mem_cons_of_mem _ hmem), hc, hd⟩
          · exact ih seen x (by simpa [claimFilterPref, h1, h2, h3] using hx)
    | null => exact ih seen x (by simpa [claimFilterPref] using hx)
    | undefined => exact ih seen x (by simpa [claimFilterPref] using hx)
    | bool b => exact ih seen x (by simpa [claimFilterPref] using hx)
    | num n => exact ih seen x (by simpa [claimFilterPref] using hx)
    | arr xs => exact ih seen x (by simpa [claimFilterPref] using hx)
    | obj fs => exact ih seen x (by simpa [claimFilterPref] using hx)

theorem claimFilterPref_nodup (sN : List JStr) :
    ∀ (vs : List JSVal) (seen : List JStr), (claimFilterPref sN vs seen).Nodup := by
  intro vs
  induction vs with
  | nil => intro seen; exact List.nodup_nil
  | cons v vs ih =>
    intro seen
    cases v with
    | str s =>
      by_cases h1 : jsTrim s = []
      · simpa [claimFilterPref, h1] using ih seen
      · by_cases h2 : jsTrim s ∈ seen
        · simpa [claimFilterPref, h1, h2] using ih seen
        · by_cases h3 : jsTrim s ∈ sN
          · rw [show claimFilterPref sN (.str s :: vs) seen
                = jsTrim s :: claimFilterPref sN vs (jsTrim s :: seen) by
              simp [claimFilterPref, h1, h2, h3]]
            refine List.Nodup.cons ?_ (ih (jsTrim s :: seen))
            intro hmem
            exact (claimFilterPref_mem sN vs (jsTrim s :: seen) _ hmem).2.1
              (List.mem_cons_self _ _)
          · simpa [claimFilterPref, h1, h2, h3] using ih seen
    | null => simpa [claimFilterPref] using ih seen
    | undefined => simpa [claimFilterPref] using ih seen
    | bool b => simpa [claimFilterPref] using ih seen
    | num n => simpa [claimFilterPref] using ih seen
    | arr xs => simpa [claimFilterPref] using ih seen
    | obj fs => simpa [claimFilterPref] using ih seen

theorem foldl_addLanguage_of_filter_nil (sN : List JStr) (vs : List JSVal) :
    ∀ st : List JStr × List JStr, claimFilterPref sN vs st.1 = [] →
      vs.foldl (addLanguage sN) st = st := by
  induction vs with
  | nil => intro st _; rfl
  | cons v vs ih =>
    intro st hnil
    rw [List.foldl_cons]
    cases v with
    | str s =>
      by_cases h1 : jsTrim s = []
      · rw [show addLanguage sN st (.str s) = st by simp [addLanguage, h1]]
        exact ih st (by simpa [claimFilterPref, h1] using hnil)
      · by_cases h2 : jsTrim s ∈ st.1
        · rw [show addLanguage sN st (.str s) = st by simp [addLanguage, h1, h2]]
          exact ih st (by simpa [claimFilterPref, h1, h2] using hnil)
        · by_cases h3 : jsTrim s ∈ sN
          · exfalso
            rw [show claimFilterPref sN (.str s :: vs) st.1
                = jsTrim s :: claimFilterPref sN vs (jsTrim s :: st.1) by
              simp [claimFilterPref, h1, h2, h3]] at hnil
            exact List.cons_ne_nil _ _ hnil
          · rw [show addLanguage sN st (.str s) = st by simp [addLanguage, h1, h2, h3]]
            exact ih st (by simpa [claimFilterPref, h1, h2, h3] using hnil)
    | null => exact ih st (by simpa [claimFilterPref] using hnil)
    | undefined => exact ih st (by simpa [claimFilterPref] using hnil)
    | bool b => exact ih st (by simpa [claimFilterPref] using hnil)
    | num n => exact ih st (by simpa [claimFilterPref] using hnil)
    | arr xs => exact ih st (by simpa [claimFilterPref] using hnil)
    | obj fs => exact ih st (by simpa [claimFilterPref] using hnil)

theorem foldl_addLanguage_all (sN : List JStr) :
    ∀ (l : List JStr) (st : List JStr × List JStr),
      (∀ x ∈ l, jsTrim x = x ∧ x ≠ [] ∧ x ∈ sN) → l.Nodup →
      (∀ x ∈ l, x ∉ st.1) →
      (l.foldl (fun st x => addLanguage sN st (.str x)) st).2 = st.2 ++ l := by
  intro l
  induction l with
  | nil => intro st _ _ _; simp
  | cons c l ih =>
    intro st hprops hnd hseen
    obtain ⟨htrim, hne, hmem⟩ := hprops c (List.mem_cons_self c l)
    rw [List.foldl_cons]
    have hstep : addLanguage sN st (.str c) = (c :: st.1, st.2 ++ [c]) := by
      simp [addLanguage, htrim, hne, hmem, hseen c (List.mem_cons_self c l)]
    rw [hstep]
    rw [ih (c :: st.1, st.2 ++ [c])
      (fun x hx => hprops x (List.mem_cons_of_mem c hx))
      (List.Nodup.of_cons hnd)
      ?_]
    · simp
    · intro x hx
      intro hmem1
      rcases List.mem_cons.mp hmem1 with h | h
      · subst h
        exact (List.nodup_cons.mp hnd).1 hx
      · exact hseen x (List.mem_cons_of_mem c hx) h

theorem normalizeSottakuLanguages_eq (pref : JSVal) (d : JStr) (supp : List JStr) :
    normalizeSottakuLanguages pref d supp
      = (if claimFilterPref (normalizeSupportedLanguagesList supp) (prefListOf pref) [] ≠ []
         then claimFilterPref (normalizeSupportedLanguagesList supp) (prefListOf pref) []
         else if jsTrim d ≠ [] ∧ jsTrim d ∈ normalizeSupportedLanguagesList supp
           then [jsTrim d]
           else normalizeSupportedLanguagesList supp) := by
  have hst1 : ((prefListOf pref).foldl
      (addLanguage (normalizeSupportedLanguagesList supp)) ([], [])).2
      = claimFilterPref (normalizeSupportedLanguagesList supp) (prefListOf pref) [] := by
    rw [foldl_addLanguage_eq]
    rfl
  by_cases hf : claimFilterPref (normalizeSupportedLanguagesList supp) (prefListOf pref) [] = []
  · have hst1' : (prefListOf pref).foldl
        (addLanguage (normalizeSupportedLanguagesList supp)) ([], []) = ([], []) :=
      foldl_addLanguage_of_filter_nil _ (prefListOf pref) ([], []) hf
    rw [if_neg (by simpa using hf)]
    simp only [normalizeSottakuLanguages, hst1']
    by_cases hd1 : jsTrim d = []
    · rw [show addLanguage (normalizeSupportedLanguagesList supp) ([], []) (.str d)
          = (([], []) : List JStr × List JStr) by simp [addLanguage, hd1]]
      rw [if_neg (show ¬(jsTrim d ≠ [] ∧
          jsTrim d ∈ normalizeSupportedLanguagesList supp) by simp [hd1])]
      obtain ⟨hnd, hprops, _⟩ := normalizeSupportedLanguagesList_good supp
      simp only [if_true]
      rw [foldl_addLanguage_all (normalizeSupportedLanguagesList supp)
        (normalizeSupportedLanguagesList supp) ([], [])
        (fun x hx => ⟨(hprops x hx).1, (hprops x hx).2, hx⟩) hnd
        (fun x _ => by intro h; cases h)]
      rfl
    · by_cases hd2 : jsTrim d ∈ normalizeSupportedLanguagesList supp
      · rw [show addLanguage (normalizeSupportedLanguagesList supp) ([], []) (.str d)
            = ([jsTrim d], [jsTrim d]) by simp [addLanguage, hd1, hd2]]
        rw [if_pos (show jsTrim d ≠ [] ∧
          jsTrim d ∈ normalizeSupportedLanguagesList supp from ⟨hd1, hd2⟩)]
        simp
      · rw [show addLanguage (normalizeSupportedLanguagesList supp) ([], []) (.str d)
            = (([], []) : List JStr × List JStr) by simp [addLanguage, hd1, hd2]]
        rw [if_neg (show ¬(jsTrim d ≠ [] ∧
            jsTrim d ∈ normalizeSupportedLanguagesList supp) by simp [hd2])]
        obtain ⟨hnd, hprops, _⟩ := normalizeSupportedLanguagesList_good supp
        simp only [if_true]
        rw [foldl_addLanguage_all (normalizeSupportedLanguagesList supp)
          (normalizeSupportedLanguagesList supp) ([], [])
          (fun x hx => ⟨(hprops x hx).1, (hprops x hx).2, hx⟩) hnd
          (fun x _ => by intro h; cases h)]
        rfl
  · rw [if_pos (by simpa using hf)]
    simp only [normalizeSottakuLanguages, hst1, if_neg hf]

theorem normalizeSottakuLanguages_ne_nil (pref : JSVal) (d : JStr) (supp : List JStr) :
    normalizeSottakuLanguages pref d supp ≠ [] := by
  rw [normalizeSottakuLanguages_eq]
  by_cases hf : claimFilterPref (normalizeSupportedLanguagesList supp) (prefListOf pref) [] = []
  · rw [if_neg (by simpa using hf)]
    by_cases hd : jsTrim d ≠ [] ∧ jsTrim d ∈ normalizeSupportedLanguagesList supp
    · rw [if_pos hd]
      exact List.cons_ne_nil _ _
    · rw [if_neg hd]
      exact (normalizeSupportedLanguagesList_good supp).2.2
  · rw [if_pos (by simpa using hf)]
    exact hf

theorem normalizeSottakuLanguages_nodup_mem (pref : JSVal) (d : JStr) (supp : List JStr) :
    (normalizeSottakuLanguages pref d supp).Nodup ∧
    ∀ x ∈ normalizeSottakuLanguages pref d supp,
      x ∈ normalizeSupportedLanguagesList supp := by
  rw [normalizeSottakuLanguages_eq]
  by_cases hf : claimFilterPref (normalizeSupportedLanguagesList supp) (prefListOf pref) [] = []
  · rw [if_neg (by simpa using hf)]
    by_cases hd : jsTrim d ≠ [] ∧ jsTrim d ∈ normalizeSupportedLanguagesList supp
    · rw [if_pos hd]
      refine ⟨List.nodup_singleton _, ?_⟩
      intro x hx
      rw [List.mem_singleton] at hx
      subst hx
      exact hd.2
    · rw [if_neg hd]
      exact ⟨(normalizeSupportedLanguagesList_good supp).1, fun x hx => hx⟩
  · rw [if_pos (by simpa using hf)]
    refine ⟨claimFilterPref_nodup _ _ _, ?_⟩
    intro x hx
    exact (claimFilterPref_mem _ _ _ x hx).1

/-- Claim C3: `_resolveLanguages` always returns a non-empty ordered list; a
fixed mode returns exactly that language; `mixed` returns the preferred list
normalized against the supported set (duplicate-free, contained in the
normalized supported set); otherwise Hangul script wins over the Japanese
test (`ko`), Japanese script yields `ja`, and undetected text falls back to
the first normalized preferred language, then the default language, then
`ja`; with the concrete examples resolving as the claim states. -/
theorem c3_resolve_languages (st : List JStr) (text languageMode defaultLanguage : JStr)
    (preferredLanguages : JSVal) :
    (resolveLanguages st text languageMode preferredLanguages defaultLanguage ≠ []) ∧
    (languageMode = "ja".toList →
      resolveLanguages st text languageMode preferredLanguages defaultLanguage
        = ["ja".toList]) ∧
    (languageMode = "ko".toList →
      resolveLanguages st text languageMode preferredLanguages defaultLanguage
        = ["ko".toList]) ∧
    (languageMode = "mixed".toList →
      resolveLanguages st text languageMode preferredLanguages defaultLanguage
        = normalizeSottakuLanguages preferredLanguages defaultLanguage
            (if st ≠ [] then st else SOTTAKU_SUPPORTED_LANGUAGES) ∧
      (resolveLanguages st text languageMode preferredLanguages defaultLanguage).Nodup ∧
      (∀ x ∈ resolveLanguages st text languageMode preferredLanguages defaultLanguage,
        x ∈ normalizeSupportedLanguagesList
          (if st ≠ [] then st else SOTTAKU_SUPPORTED_LANGUAGES))) ∧
    (languageMode ≠ "ja".toList → languageMode ≠ "ko".toList →
      languageMode ≠ "mixed".toList →
      ((jsTrim text).any isHangulChar = true →
        resolveLanguages st text languageMode preferredLanguages defaultLanguage
          = ["ko".toList]) ∧
      ((jsTrim text).any isHangulChar = false →
        (jsTrim text).any isJapaneseChar = true →
        resolveLanguages st text languageMode preferredLanguages defaultLanguage
          = ["ja".toList]) ∧
      ((jsTrim text).any isHangulChar = false →
        (jsTrim text).any isJapaneseChar = false →
        resolveLanguages st text languageMode preferredLanguages defaultLanguage
          = (match normalizeSottakuLanguages preferredLanguages defaultLanguage
                (if st ≠ [] then st else SOTTAKU_SUPPORTED_LANGUAGES) with
             | first :: _ => [first]
             | [] => if defaultLanguage ≠ [] then [defaultLanguage] else ["ja".toList]))) ∧
    (resolveLanguages SOTTAKU_SUPPORTED_LANGUAGES "こんにちは".toList "auto".toList
        (.arr []) "en".toList = ["ja".toList] ∧
     resolveLanguages SOTTAKU_SUPPORTED_LANGUAGES "안녕하세요".toList "auto".toList
        (.arr []) "en".toList = ["ko".toList] ∧
     resolveLanguages SOTTAKU_SUPPORTED_LANGUAGES "hello".toList "auto".toList
        (.arr []) "en".toList = ["ja".toList]) := by
  refine ⟨?_, ?_, ?_, ?_, ?_, by decide, by decide, by decide⟩
  · simp only [resolveLanguages]
    by_cases h1 : languageMode = "ja".toList
    · simp [h1]
    · rw [if_neg h1]
      by_cases h2 : languageMode = "ko".toList
      · rw [if_pos h2]
        exact List.cons_ne_nil _ _
      · rw [if_neg h2]
        by_cases h3 : languageMode = "mixed".toList
        · rw [if_pos h3]
          exact normalizeSottakuLanguages_ne_nil _ _ _
        · rw [if_neg h3]
          cases hdet : detectLanguageFromText text with
          | some detected => exact List.cons_ne_nil _ _
          | none =>
            cases hnorm : normalizeSottakuLanguages preferredLanguages defaultLanguage
                (if st ≠ [] then st else SOTTAKU_SUPPORTED_LANGUAGES) with
            | cons first rest => exact List.cons_ne_nil _ _
            | nil =>
              by_cases hd : defaultLanguage ≠ []
              · rw [if_pos hd]
                exact List.cons_ne_nil _ _
              · rw [if_neg hd]
                exact List.cons_ne_nil _ _
  · intro h
    simp [resolveLanguages, h]
  · intro h
    simp only [resolveLanguages]
    rw [if_neg (by rw [h]; decide), if_pos h]
  · intro h
    have hr : resolveLanguages st text languageMode preferredLanguages defaultLanguage
        = normalizeSottakuLanguages preferredLanguages defaultLanguage
            (if st ≠ [] then st else SOTTAKU_SUPPORTED_LANGUAGES) := by
      simp only [resolveLanguages]
      rw [if_neg (by rw [h]; decide), if_neg (by rw [h]; decide), if_pos h]
    refine ⟨hr, ?_, ?_⟩
    · rw [hr]
      exact (normalizeSottakuLanguages_nodup_mem _ _ _).1
    · rw [hr]
      exact (normalizeSottakuLanguages_nodup_mem _ _ _).2
  · intro hja hko hmx
    refine ⟨?_, ?_, ?_⟩
    · intro hH
      simp only [resolveLanguages]
      rw [if_neg hja, if_neg hko, if_neg hmx]
      rw [show detectLanguageFromText text = some "ko".toList by
        simp [detectLanguageFromText, hH]]
    · intro hH hJ
      simp only [resolveLanguages]
      rw [if_neg hja, if_neg hko, if_neg hmx]
      rw [show detectLanguageFromText text = some "ja".toList by
        simp [detectLanguageFromText, hH, hJ]]
    · intro hH hJ
      simp only [resolveLanguages]
      rw [if_neg hja, if_neg hko, if_neg hmx]
      rw [show detectLanguageFromText text = none by
        simp [detectLanguageFromText, hH, hJ]]

/-- Witness for C3 at a concrete input: fixed mode `ja` resolves to `ja`. -/
theorem c3_resolve_languages_witness :
    resolveLanguages SOTTAKU_SUPPORTED_LANGUAGES "abc".toList "ja".toList
      (.arr []) "en".toList = ["ja".toList] :=
  (c3_resolve_languages SOTTAKU_SUPPORTED_LANGUAGES "abc".toList "ja".toList
    "en".toList (.arr [])).2.1 rfl

end Sottaku
